import Mathlib

/-!
Verification of the vivarium-lite configuration-and-lifecycle subsystem.

This development shallowly embeds the layered configuration tree
(src/vivarium/config_tree.py) and the component manager
(src/vivarium/framework/components/manager.py).  Pure fragments of the
Python code become Lean functions; fallible code returns Except.  Parts of
the repository that are referenced by the tests and the spec but whose
definitions are not present under src (the ConfigNode write/read helpers
`_set_with_metadata` / `get_from_layer` / provenance, and the validating
ComponentList) are modelled from the spec, and are marked as such in their
doc comments.
-/

namespace Vivarium

/-- A scalar configuration value (the Python scalars exercised by the
repository: ints, strings and booleans). -/
inductive CVal where
  | int (n : Int)
  | str (s : String)
  | bool (b : Bool)
deriving DecidableEq, Repr

/-- Nested string-keyed input data for `ConfigTree.update`, as described in
the update docstring: flat or nested dictionaries whose leaves are scalars.
A dictionary is encoded as an `mcons` chain ending in `mnil` (keeping the
Python dict's insertion order). -/
inductive CData where
  | scalar (v : CVal)
  | mnil
  | mcons (k : String) (v : CData) (rest : CData)
deriving DecidableEq, Repr

/-- `isinstance(x, dict)` for update data. -/
def CData.isMap : CData → Bool
  | .scalar _ => false
  | _ => true

/-- A per-layer entry of a configuration node: (layer, source, value).
The source is `Option String` because Python stores `None` sources. -/
abbrev NodeEntry := String × Option String × CVal

/-- A configuration tree.  A child is either a leaf node (a `ConfigNode`
holding at most one `(source, value)` entry per layer) or a nested tree.
Children of an interior node are encoded as a `tcons` chain ending in
`tnil`, keeping insertion order like a Python dict. -/
inductive CTree where
  | leaf (entries : List NodeEntry)
  | tnil
  | tcons (k : String) (c : CTree) (rest : CTree)
deriving DecidableEq, Repr

/-- `isinstance(x, ConfigTree)`: interior trees are `tnil`/`tcons`. -/
def CTree.isTree : CTree → Bool
  | .leaf _ => false
  | _ => true

/-- The error surface of the subsystem:
`keyError` models `ConfigurationKeyError` (a `KeyError`);
`structuralMismatch` and `invalidData` model `ConfigurationError`;
the remaining constructors model `ComponentConfigError`. -/
inductive CErr where
  | keyError (name : String)
  | structuralMismatch (key : String)
  | invalidData
  | dupStructural (srcNew : String) (key : String)
  | dupDefault (srcNew : String) (srcOld : Option String) (key : String)
  | noneInList
  | noName
  | duplicateName (n : String)
deriving DecidableEq, Repr

/-- Look up a child by key in the children chain of an interior tree
(`name in self._children` / `self._children[name]`). -/
def lookupChild : CTree → String → Option CTree
  | .leaf _, _ => none
  | .tnil, _ => none
  | .tcons k c rest, k' => if k' = k then some c else lookupChild rest k'

/-- Replace the child at a key, or append it at the end of the chain when
the key is new (Python dict assignment semantics). -/
def setChild : CTree → String → CTree → CTree
  | .leaf e, _, _ => .leaf e
  | .tnil, k, c => .tcons k c .tnil
  | .tcons k0 c0 rest, k, c =>
    if k = k0 then .tcons k0 c rest else .tcons k0 c0 (setChild rest k c)

/-- The top-level keys of a tree (`ConfigTree.keys()`). -/
def keysOf : CTree → List String
  | .leaf _ => []
  | .tnil => []
  | .tcons k _ rest => k :: keysOf rest

/-- Look up the entry a node holds at a named layer. -/
def lookupLayer : List NodeEntry → String → Option (Option String × CVal)
  | [], _ => none
  | (l, s, v) :: rest, L => if l = L then some (s, v) else lookupLayer rest L

/-- Modelled from the spec: `ConfigNode.set_value` (not under src).  Writes
the `(source, value)` entry of a named layer, overwriting a previous entry
of the same layer. -/
def nodeSet : List NodeEntry → String → Option String → CVal → List NodeEntry
  | [], L, s, v => [(L, s, v)]
  | (l, s0, v0) :: rest, L, s, v =>
    if l = L then (L, s, v) :: rest else (l, s0, v0) :: nodeSet rest L s v

/-- Modelled from the spec: `ConfigNode.get_value` resolution (not under
src).  Returns the `(source, value)` entry of the highest-priority layer
holding one; layers are listed in ascending priority. -/
def nodeGetWithSource (layers : List String) (e : List NodeEntry) :
    Option (Option String × CVal) :=
  layers.reverse.findSome? (fun l => lookupLayer e l)

/-- Modelled from the spec: a node's provenance, the ordered sequence of
`(layer, source, value)` triples in ascending layer order. -/
def provenanceN (layers : List String) (e : List NodeEntry) : List NodeEntry :=
  layers.filterMap (fun l => (lookupLayer e l).map (fun p => (l, p.1, p.2)))

/-- Modelled from the spec: the recursive body of
`ConfigTree.update` / `_set_with_metadata` (the latter is not under src),
following spec section 4.2.
For each key of the data: create the child if absent (subtree for a map,
leaf for a scalar); recurse when both sides are subtrees; fail with a
structural error when the shapes disagree; otherwise write the scalar at
the leaf for layer `L`.  A scalar at the top level is not a valid update
payload. -/
def updateData (layers : List String) (L : String) (src : Option String) :
    CTree → CData → Except CErr CTree
  | _, .scalar _ => .error .invalidData
  | t, .mnil => .ok t
  | t, .mcons k dv rest =>
    let step : Except CErr CTree :=
      match lookupChild t k, dv with
      | none, .scalar v => .ok (setChild t k (.leaf (nodeSet [] L src v)))
      | some (.leaf e), .scalar v => .ok (setChild t k (.leaf (nodeSet e L src v)))
      | some _, .scalar _ => .error (.structuralMismatch k)
      | none, dm => (updateData layers L src .tnil dm).map (fun sub => setChild t k sub)
      | some (.leaf _), _ => .error (.structuralMismatch k)
      | some sub0, dm => (updateData layers L src sub0 dm).map (fun sub => setChild t k sub)
    match step with
    | .error e => .error e
    | .ok t' => updateData layers L src t' rest

/-- `ConfigTree.update`: resolves the target layer (outermost when none is
given) and checks that it is a known layer before writing. -/
def updateCT (layers : List String) (t : CTree) (d : CData)
    (layer : Option String) (src : Option String) : Except CErr CTree :=
  let L := layer.getD (layers.getLastD "base")
  if L ∈ layers then updateData layers L src t d else .error (.keyError L)

/-- The result of `ConfigTree.get_from_layer`: an interior subtree or a
resolved scalar. -/
inductive ReadRes where
  | subtree (t : CTree)
  | value (v : CVal)
deriving DecidableEq, Repr

/-- Modelled from the spec: `ConfigTree.get_from_layer` (not under src),
the target of `__getattr__`/`__getitem__`.  A missing key yields an empty
ephemeral subtree; an interior child is returned as a subtree; a leaf child
resolves at the requested layer (or the outermost layer holding an entry),
failing with a key error when no entry is found. -/
def getFromLayer (layers : List String) (t : CTree) (name : String)
    (layer : Option String) : Except CErr ReadRes :=
  match lookupChild t name with
  | none => .ok (.subtree .tnil)
  | some (.leaf e) =>
    match layer with
    | some l =>
      match lookupLayer e l with
      | some (_, v) => .ok (.value v)
      | none => .error (.keyError name)
    | none =>
      match nodeGetWithSource layers e with
      | some (_, v) => .ok (.value v)
      | none => .error (.keyError name)
  | some sub => .ok (.subtree sub)

/-- Chained attribute reads `tree.k1.k2...kn`, resolving the final leaf at
the outermost layer holding an entry. -/
def getScalar (layers : List String) (t : CTree) : List String → Option CVal
  | [] => none
  | [k] =>
    match lookupChild t k with
    | some (.leaf e) => (nodeGetWithSource layers e).map (fun p => p.2)
    | _ => none
  | k :: ks =>
    match lookupChild t k with
    | some (.leaf _) => none
    | some sub => getScalar layers sub ks
    | none => none

/-- Chained reads resolved at one named layer. -/
def getScalarAtLayer (t : CTree) (p : List String) (L : String) : Option CVal :=
  match p with
  | [] => none
  | [k] =>
    match lookupChild t k with
    | some (.leaf e) => (lookupLayer e L).map (fun q => q.2)
    | _ => none
  | k :: ks =>
    match lookupChild t k with
    | some (.leaf _) => none
    | some sub => getScalarAtLayer sub ks L
    | none => none

/-- Modelled from the spec: `provenance(key)` on a tree (the ceam test
suite calls it `source`; its definition is not under src).  Fails with a
key error naming the key when the key has no node. -/
def provenance (layers : List String) (t : CTree) (name : String) :
    Except CErr (List NodeEntry) :=
  match lookupChild t name with
  | some (.leaf e) => .ok (provenanceN layers e)
  | _ => .error (.keyError name)

/-- `ConfigTree.__setattr__` / `__setitem__`: assignment to a key that does
not already exist fails with a `ConfigurationKeyError`; otherwise the value
is written through `_set_with_metadata` on the outermost layer with no
source. -/
def setAttr (layers : List String) (t : CTree) (name : String) (d : CData) :
    Except CErr CTree :=
  if (lookupChild t name).isSome then
    updateData layers (layers.getLastD "base") none t (.mcons name d .mnil)
  else .error (.keyError name)

/-- The name of the shared component-defaults layer used by
`apply_component_default_configuration`. -/
def componentConfigsLayer : String := "component_configs"

/-- The source the duplicate-default error reports for the previously
written value: `config._children[key].get_value_with_source()` resolves the
node at the outermost layer holding an entry. -/
def oldSourceOf (layers : List String) (cfg : CTree) (k : String) : Option String :=
  match lookupChild cfg k with
  | some (.leaf e) => (nodeGetWithSource layers e).bind (fun p => p.1)
  | _ => none

/-- `check_duplicated_default_configuration`: walk the keys present in both
the component's declared defaults and the existing config; recurse when
both sides are nested; fail with a structural `ComponentConfigError` when
exactly one side is nested; fail with a duplicate-default
`ComponentConfigError` (naming the new source, the recorded old source and
the key) when both are scalars.  The `except KeyError: pass` of the source
tolerates a node with no entry at the `component_configs` layer. -/
def checkDup (layers : List String) (src : String) :
    CData → CTree → Except CErr Unit
  | .scalar _, _ => .ok ()
  | .mnil, _ => .ok ()
  | .mcons k dv rest, cfg =>
    let step : Except CErr Unit :=
      if (lookupChild cfg k).isSome then
        match getFromLayer layers cfg k (some componentConfigsLayer) with
        | .error (.keyError _) => .ok ()
        | .error e => .error e
        | .ok (.subtree sub) =>
          if dv.isMap then checkDup layers src dv sub
          else .error (.dupStructural src k)
        | .ok (.value _) =>
          if dv.isMap then .error (.dupStructural src k)
          else .error (.dupDefault src (oldSourceOf layers cfg k) k)
      else .ok ()
    match step with
    | .error e => .error e
    | .ok _ => checkDup layers src rest cfg

/-- `apply_component_default_configuration`: raise if the component's
defaults duplicate existing defaults, otherwise merge them into the
`component_configs` layer attributed to the component's source file. -/
def applyDefaults (layers : List String) (cfg : CTree) (defaults : CData)
    (source : String) : Except CErr CTree := do
  let _ ← checkDup layers source defaults cfg
  updateCT layers cfg defaults (some componentConfigsLayer) (some source)

/-! ## The component manager -/

mutual
/-- A vivarium component: an identity (standing for the Python object
identity, on which list membership tests compare), optional declared
`configuration_defaults` with the source file they are attributed to,
whether a `setup` method exists, and the components its setup registers
through the builder. -/
inductive Comp where
  | mk (cid : Nat) (defaults : Option CData) (src : String)
       (hasSetup : Bool) (regs : CompList)

/-- A list of components registered by a setup callback. -/
inductive CompList where
  | nil
  | cons (c : Comp) (rest : CompList)
end

def Comp.cid : Comp → Nat
  | .mk i _ _ _ _ => i

def Comp.defaults : Comp → Option CData
  | .mk _ d _ _ _ => d

def Comp.src : Comp → String
  | .mk _ _ s _ _ => s

def Comp.hasSetup : Comp → Bool
  | .mk _ _ _ h _ => h

def Comp.regs : Comp → CompList
  | .mk _ _ _ _ r => r

def CompList.toList : CompList → List Comp
  | .nil => []
  | .cons c rest => c :: rest.toList

mutual
/-- The size of the registration tree below a component; the drain loop's
termination measure. -/
def Comp.size : Comp → Nat
  | .mk _ _ _ _ rs => 1 + rs.size

def CompList.size : CompList → Nat
  | .nil => 0
  | .cons c rest => c.size + rest.size
end

/-- Identities of a component list; Python's `c in setup` compares object
identity. -/
def ids (l : List Comp) : List Nat := l.map Comp.cid

/-- The state threaded through `setup_components`: the shared configuration
tree, the `configured` list, the `setup` list (Done components, in
processing order), the ordered trace of setup-callback invocations, and the
pending error, if any. -/
structure SimState where
  config : CTree
  configured : List Comp
  done : List Comp
  trace : List Comp
  err : Option CErr

/-- One guarded defaults application:
`if hasattr(c, "configuration_defaults") and c not in configured: ...`. -/
def configOne (layers : List String) (st : SimState) (c : Comp) : SimState :=
  match c.defaults with
  | none => st
  | some d =>
    if c.cid ∈ ids st.configured then st
    else
      match applyDefaults layers st.config d c.src with
      | .ok cfg => { st with config := cfg, configured := st.configured ++ [c] }
      | .error e => { st with err := some e }

/-- The first loop of `setup_components`: apply top-level configurations in
list order.  A raised error aborts the loop; `None` placeholders have no
`configuration_defaults` attribute and are skipped. -/
def prePass (layers : List String) (st : SimState) :
    List (Option Comp) → SimState
  | [] => st
  | none :: rest => prePass layers st rest
  | some c :: rest =>
    let st' := configOne layers st c
    if st'.err.isSome then st' else prePass layers st' rest

/-- The worklist measure: a popped component contributes itself plus its
registration tree back to the list. -/
def wSize : List (Option Comp) → Nat
  | [] => 0
  | none :: rest => 1 + wSize rest
  | some c :: rest => c.size + wSize rest

theorem Comp.size_pos : ∀ c : Comp, 0 < c.size
  | .mk _ _ _ _ _ => by simp [Comp.size]

theorem wSize_append (a b : List (Option Comp)) :
    wSize (a ++ b) = wSize a + wSize b := by
  induction a with
  | nil => simp [wSize]
  | cons x rest ih =>
    cases x <;> simp [wSize, ih] <;> omega

theorem wSize_map_some : ∀ l : CompList, wSize (l.toList.map some) = l.size
  | .nil => by simp [CompList.toList, wSize, CompList.size]
  | .cons c rest => by
    simp [CompList.toList, wSize, CompList.size, wSize_map_some rest]

/-- The second loop of `setup_components`: pop components FIFO; fail on a
`None` placeholder; apply defaults for components registered mid-traversal;
invoke the setup callback of a component not yet Done (its registrations
are appended to the end of the worklist) and mark it Done. -/
def drain (layers : List String) (st : SimState) (ws : List (Option Comp)) :
    SimState :=
  match ws with
  | [] => st
  | none :: _ => { st with err := some .noneInList }
  | some c :: rest =>
    let st1 := configOne layers st c
    if st1.err.isSome then st1
    else if c.cid ∈ ids st1.done then drain layers st1 rest
    else if c.hasSetup then
      drain layers { st1 with done := st1.done ++ [c], trace := st1.trace ++ [c] }
        (rest ++ c.regs.toList.map some)
    else drain layers { st1 with done := st1.done ++ [c] } rest
termination_by wSize ws
decreasing_by
  · simp only [wSize]
    have := Comp.size_pos c
    omega
  · simp only [wSize, wSize_append, wSize_map_some]
    have : (Comp.regs c).size + 1 = c.size := by
      cases c with
      | mk i d s h r => simp [Comp.size, Comp.regs]; omega
    omega
  · simp only [wSize]
    have := Comp.size_pos c
    omega

/-- `setup_components`: the configuration pre-pass followed by the worklist
drain over the same list, starting from empty `configured` and `setup`
lists. -/
def setupComponents (layers : List String) (cfg : CTree)
    (ws : List (Option Comp)) : SimState :=
  let st1 := prePass layers ⟨cfg, [], [], [], none⟩ ws
  if st1.err.isSome then st1 else drain layers st1 ws

/-! ## Registration: ComponentList and the flattening of nested inputs -/

/-- A component as seen by registration: an identity and a possibly
missing discoverable name. -/
structure NComp where
  cid : Nat
  name : Option String
deriving DecidableEq, Repr

/-- The names of the current members of a component list. -/
def namesOf (l : List NComp) : List String := l.filterMap NComp.name

/-- The discoverable name of a registration element; a `None` element has
none. -/
def optName (x : Option NComp) : Option String := x.bind NComp.name

/-- Modelled from the spec: the membership validation of `ComponentList`
(imported by the test suite, not defined under src).  An element with no
discoverable name — in particular a `None` element — is rejected with a
no-name `ComponentConfigError`; an element whose name duplicates an
existing member's is rejected with a duplicate-name `ComponentConfigError`. -/
def validateMember (l : List NComp) (x : Option NComp) : Except CErr NComp :=
  match x with
  | none => .error .noName
  | some c =>
    match c.name with
    | none => .error .noName
    | some n => if n ∈ namesOf l then .error (.duplicateName n) else .ok c

/-- Modelled from the spec: `ComponentList.append`. -/
def clAppend (l : List NComp) (x : Option NComp) : Except CErr (List NComp) :=
  (validateMember l x).map (fun c => l ++ [c])

/-- Modelled from the spec: `ComponentList.insert(-1, x)` — insertion
before the last element, as exercised by the tests. -/
def clInsertBeforeEnd (l : List NComp) (x : Option NComp) :
    Except CErr (List NComp) :=
  (validateMember l x).map (fun c => l.take (l.length - 1) ++ c :: l.drop (l.length - 1))

/-- Modelled from the spec: `ComponentList[i] = x` — indexed replacement. -/
def clSet (l : List NComp) (i : Nat) (x : Option NComp) :
    Except CErr (List NComp) :=
  (validateMember l x).map (fun c => l.set i c)

/-- A Python value handed to `add_components`/`add_managers`: either a
non-sequence element (a component, possibly `None`), or a list/tuple whose
items are encoded as an `ocons` chain ending in `onil`. -/
inductive PyObj where
  | leaf (c : Option NComp)
  | onil
  | ocons (x : PyObj) (rest : PyObj)
deriving DecidableEq, Repr

/-- `isinstance(x, list) or isinstance(x, tuple)`. -/
def PyObj.isSeq : PyObj → Bool
  | .leaf _ => false
  | _ => true

/-- A well-formed Python value: sequence tails are sequences. -/
def PyObj.wf : PyObj → Bool
  | .leaf _ => true
  | .onil => true
  | .ocons x rest => x.wf && rest.wf && rest.isSeq

/-- The depth-first, left-to-right leaves of a nested sequence value. -/
def leavesOf : PyObj → List (Option NComp)
  | .leaf c => [c]
  | .onil => []
  | .ocons x rest => leavesOf x ++ leavesOf rest

/-- `ComponentManager._add_components`: iterate the given value, recursing
into list/tuple items and appending every other item to the component
list.  Iterating a non-sequence is a caller error in Python; it is modelled
as a no-op and excluded by well-formedness in the theorems. -/
def addComps (acc : List (Option NComp)) : PyObj → List (Option NComp)
  | .leaf _ => acc
  | .onil => acc
  | .ocons x rest =>
    match x with
    | .leaf c => addComps (acc ++ [c]) rest
    | x' => addComps (addComps acc x') rest

/-- The `ComponentManager`'s two lists. -/
structure CMState where
  managers : List (Option NComp)
  comps : List (Option NComp)
deriving DecidableEq, Repr

/-- `ComponentManager.add_components`. -/
def addComponentsM (st : CMState) (xs : PyObj) : CMState :=
  { st with comps := addComps st.comps xs }

/-- `ComponentManager.add_managers`. -/
def addManagersM (st : CMState) (xs : PyObj) : CMState :=
  { st with managers := addComps st.managers xs }

/-- Registration through the validating `ComponentList`: the `_add_components`
flattening where every append goes through membership validation. -/
def addCompsV (acc : List NComp) : PyObj → Except CErr (List NComp)
  | .leaf _ => .ok acc
  | .onil => .ok acc
  | .ocons x rest =>
    match x with
    | .leaf c =>
      match clAppend acc c with
      | .ok acc' => addCompsV acc' rest
      | .error e => .error e
    | x' =>
      match addCompsV acc x' with
      | .ok acc' => addCompsV acc' rest
      | .error e => .error e

/-- Nested single-path update data: `nest [x, y] v` is `{x: {y: v}}`. -/
def nest : List String → CVal → CData
  | [], v => .scalar v
  | k :: p, v => .mcons k (nest p v) .mnil

/-- The tree produced by merging a single nested path: a chain of
single-child interior nodes ending in a leaf with the given entries. -/
def nestTree : List String → List NodeEntry → CTree
  | [], e => .leaf e
  | k :: p, e => .tcons k (nestTree p e) .tnil

/-- The last key of a non-empty path, written head/tail style. -/
def lastKey : String → List String → String
  | k, [] => k
  | _, k' :: p => lastKey k' p

/-- A sequence of single-key writes, each at its own layer with its own
source, applied through `ConfigTree.update`. -/
def applyWrites (layers : List String) (k : String) :
    CTree → List (String × Option String × CVal) → Except CErr CTree
  | t, [] => .ok t
  | t, (l, s, v) :: rest =>
    match updateCT layers t (.mcons k (.scalar v) .mnil) (some l) s with
    | .ok t' => applyWrites layers k t' rest
    | .error e => .error e

/-- The per-layer node entries produced by folding `ConfigNode.set_value`
over a write sequence. -/
def foldEntries (e : List NodeEntry) (ws : List (String × Option String × CVal)) :
    List NodeEntry :=
  ws.foldl (fun acc w => nodeSet acc w.1 w.2.1 w.2.2) e

/-- The scalar value update data assigns to a path, when it assigns one.
Later entries of the same key shadow earlier ones, mirroring the fact that
the update loop applies them later. -/
def dataPath : CData → List String → Option CVal
  | .scalar v, [] => some v
  | .scalar _, _ :: _ => none
  | .mnil, _ => none
  | .mcons _ _ _, [] => none
  | .mcons k dv rest, k' :: ks =>
    match dataPath rest (k' :: ks) with
    | some v => some v
    | none => if k' = k then dataPath dv ks else none

/-- Well-formedness of a tree encoding: the tail of a children chain is
itself a chain (never a leaf).  Every tree reachable from Python code is
well-formed; the hypothesis rules out meaningless encodings only. -/
def wfT : CTree → Bool
  | .leaf _ => true
  | .tnil => true
  | .tcons _ c rest => wfT c && wfT rest && rest.isTree

/-! ## Helper lemmas -/

theorem keysOf_setChild_of_mem (k : String) (c : CTree) :
    ∀ t : CTree, (lookupChild t k).isSome →
      keysOf (setChild t k c) = keysOf t := by
  intro t
  induction t with
  | leaf e => intro h; simp [lookupChild] at h
  | tnil => intro h; simp [lookupChild] at h
  | tcons k0 c0 rest ihc ihrest =>
    intro h
    by_cases hk : k = k0
    · simp [setChild, keysOf, hk]
    · have hk' : ¬(k = k0) := hk
      simp [lookupChild, hk'] at h
      simp [setChild, keysOf, hk', ihrest h]

theorem namesOf_append (l : List NComp) (c : NComp) :
    namesOf (l ++ [c]) = namesOf l ++ c.name.toList := by
  cases h : c.name <;> simp [namesOf, List.filterMap_append, h]

theorem addCompsV_inv :
    ∀ (xs : PyObj) (acc l' : List NComp), addCompsV acc xs = .ok l' →
      ((∀ m ∈ acc, m.name.isSome) → ∀ m ∈ l', m.name.isSome) ∧
      ((namesOf acc).Nodup → (namesOf l').Nodup) := by
  intro xs
  induction xs with
  | leaf c =>
    intro acc l' h
    simp [addCompsV] at h
    subst h
    exact ⟨fun ha => ha, fun hn => hn⟩
  | onil =>
    intro acc l' h
    simp [addCompsV] at h
    subst h
    exact ⟨fun ha => ha, fun hn => hn⟩
  | ocons x rest ihx ihrest =>
    intro acc l' h
    cases x with
    | leaf c =>
      simp only [addCompsV] at h
      cases hstep : clAppend acc c with
      | error e => rw [hstep] at h; cases h
      | ok acc' =>
        rw [hstep] at h
        -- unpack the validated append
        cases c with
        | none => simp [clAppend, validateMember, Except.map] at hstep
        | some c0 =>
          cases hname : c0.name with
          | none => simp [clAppend, validateMember, hname, Except.map] at hstep
          | some n =>
            by_cases hmem : n ∈ namesOf acc
            · simp [clAppend, validateMember, hname, hmem, Except.map] at hstep
            · simp [clAppend, validateMember, hname, hmem, Except.map] at hstep
              subst hstep
              have ih := ihrest (acc ++ [c0]) l' h
              constructor
              · intro hall
                refine ih.1 ?_
                intro m hm
                rcases List.mem_append.mp hm with hm | hm
                · exact hall m hm
                · simp at hm; subst hm; simp [hname]
              · intro hnd
                refine ih.2 ?_
                rw [namesOf_append, hname]
                simp [List.nodup_append, hnd, hmem]
    | onil =>
      simp only [addCompsV] at h
      exact ihrest acc l' h
    | ocons a b =>
      simp only [addCompsV] at h
      cases hstep : addCompsV acc (.ocons a b) with
      | error e => rw [hstep] at h; cases h
      | ok acc' =>
        rw [hstep] at h
        have ih1 := ihx acc acc' hstep
        have ih2 := ihrest acc' l' h
        exact ⟨fun hall => ih2.1 (ih1.1 hall), fun hnd => ih2.2 (ih1.2 hnd)⟩

theorem addComps_flatten :
    ∀ (xs : PyObj), xs.wf → xs.isSeq →
      ∀ acc, addComps acc xs = acc ++ leavesOf xs := by
  intro xs
  induction xs with
  | leaf c => intro _ hseq; simp [PyObj.isSeq] at hseq
  | onil => intro _ _ acc; simp [addComps, leavesOf]
  | ocons x rest ihx ihrest =>
    intro hwf _ acc
    simp only [PyObj.wf, Bool.and_eq_true] at hwf
    obtain ⟨⟨hwx, hwr⟩, hsr⟩ := hwf
    cases x with
    | leaf c =>
      simp only [addComps, leavesOf]
      rw [ihrest hwr hsr]
      simp [leavesOf]
    | onil =>
      simp only [addComps, leavesOf]
      rw [ihrest hwr hsr]
      simp [leavesOf]
    | ocons a b =>
      simp only [addComps, leavesOf]
      rw [ihx hwx (by simp [PyObj.isSeq]), ihrest hwr hsr]
      simp [leavesOf]

theorem drain_nil (layers : List String) (st : SimState) :
    drain layers st [] = st := by
  rw [drain]

theorem drain_none (layers : List String) (st : SimState)
    (rest : List (Option Comp)) :
    drain layers st (none :: rest) = { st with err := some .noneInList } := by
  rw [drain]

theorem drain_cons_some (layers : List String) (st : SimState) (c : Comp)
    (rest : List (Option Comp)) :
    drain layers st (some c :: rest) =
      (if (configOne layers st c).err.isSome then configOne layers st c
       else if c.cid ∈ ids (configOne layers st c).done then
         drain layers (configOne layers st c) rest
       else if c.hasSetup then
         drain layers { configOne layers st c with
             done := (configOne layers st c).done ++ [c],
             trace := (configOne layers st c).trace ++ [c] }
           (rest ++ c.regs.toList.map some)
       else
         drain layers { configOne layers st c with
             done := (configOne layers st c).done ++ [c] } rest) := by
  rw [drain]

/-- A component without defaults, or one that is already configured, is
passed over by the guarded defaults application. -/
theorem configOne_noop (layers : List String) (st : SimState) (c : Comp)
    (h : c.defaults = none ∨ c.cid ∈ ids st.configured) :
    configOne layers st c = st := by
  rcases h with h | h
  · simp [configOne, h]
  · cases hd : c.defaults with
    | none => simp [configOne, hd]
    | some d => simp only [configOne, hd]; rw [if_pos h]

/-- The three possible outcomes of the guarded defaults application: a
no-op, a successful merge that records the component as configured, or a
raised error; `done` and `trace` are never touched. -/
theorem configOne_cases (layers : List String) (st : SimState) (c : Comp) :
    (configOne layers st c = st)
    ∨ ((configOne layers st c).err = st.err
        ∧ ids (configOne layers st c).configured = ids st.configured ++ [c.cid]
        ∧ c.cid ∉ ids st.configured
        ∧ (configOne layers st c).done = st.done
        ∧ (configOne layers st c).trace = st.trace)
    ∨ ((configOne layers st c).err.isSome
        ∧ (configOne layers st c).configured = st.configured
        ∧ (configOne layers st c).done = st.done
        ∧ (configOne layers st c).trace = st.trace) := by
  cases hd : c.defaults with
  | none => left; simp [configOne, hd]
  | some d =>
    by_cases hmem : c.cid ∈ ids st.configured
    · left; simp only [configOne, hd]; rw [if_pos hmem]
    · cases happ : applyDefaults layers st.config d c.src with
      | ok cfg =>
        right; left
        refine ⟨?_, ?_, hmem, ?_, ?_⟩ <;>
          (simp only [configOne, hd]; rw [if_neg hmem, happ]) <;>
          simp [ids]
      | error e =>
        right; right
        simp only [configOne, hd]
        rw [if_neg hmem, happ]
        simp

/-! ## Claims -/

/-- C1: the spec (and the code's own comment in
`apply_component_default_configuration`) says that merging a component's
defaults whose overlapping key paths carry an equal scalar previously
contributed by the same source is a harmless no-op.  The code disagrees:
`check_duplicated_default_configuration` raises a `ComponentConfigError`
for any scalar/scalar overlap, without comparing values or sources.  This
theorem evaluates the embedded code at the failing input: the defaults
`{x: {y: 1}}` from source `s` merge cleanly into an empty configuration,
and re-applying the identical defaults from the same source raises the
duplicate-default error instead of being a no-op. -/
theorem c1_equal_defaults_from_same_source_still_raise :
    applyDefaults ["base", "component_configs"] .tnil
        (.mcons "x" (.mcons "y" (.scalar (.int 1)) .mnil) .mnil) "s"
      = .ok (.tcons "x"
          (.tcons "y" (.leaf [("component_configs", some "s", .int 1)]) .tnil)
          .tnil)
    ∧ applyDefaults ["base", "component_configs"]
        (.tcons "x"
          (.tcons "y" (.leaf [("component_configs", some "s", .int 1)]) .tnil)
          .tnil)
        (.mcons "x" (.mcons "y" (.scalar (.int 1)) .mnil) .mnil) "s"
      = .error (.dupDefault "s" (some "s") "y") := by
  exact ⟨rfl, rfl⟩

/-- A single-key update on an existing key never changes the key set: the
updated child is written with `setChild` over a present key. -/
theorem updateData_single_keysOf (layers : List String) (L : String)
    (src : Option String) (t : CTree) (name : String) (d : CData) (t' : CTree)
    (hc : (lookupChild t name).isSome)
    (h : updateData layers L src t (.mcons name d .mnil) = .ok t') :
    keysOf t' = keysOf t := by
  obtain ⟨child, hchild⟩ := Option.isSome_iff_exists.mp hc
  cases child with
  | leaf e =>
    cases d with
    | scalar v =>
      rw [updateData.eq_4 layers L src t name .mnil e v hchild,
        updateData.eq_2] at h
      injection h with h'
      rw [← h']
      exact keysOf_setChild_of_mem name _ t hc
    | mnil =>
      rw [updateData.eq_7 layers L src t name .mnil .mnil e hchild
        (by intro v hv; cases hv)] at h
      cases h
    | mcons k dv rest =>
      rw [updateData.eq_7 layers L src t name .mnil (.mcons k dv rest) e hchild
        (by intro v hv; cases hv)] at h
      cases h
  | tnil =>
    cases d with
    | scalar v =>
      rw [updateData.eq_5 layers L src t name .mnil v .tnil hchild
        (by intro e he; cases he)] at h
      cases h
    | mnil =>
      rw [updateData.eq_8 layers L src t name .mnil .mnil .tnil
        (by intro e he; cases he) hchild
        (by intro e v he hv; cases he) (by intro v hv; cases hv)] at h
      simp only [updateData.eq_2, Except.map] at h
      injection h with h'
      rw [← h']
      exact keysOf_setChild_of_mem name _ t hc
    | mcons k dv rest =>
      rw [updateData.eq_8 layers L src t name .mnil (.mcons k dv rest) .tnil
        (by intro e he; cases he) hchild
        (by intro e v he hv; cases he) (by intro v hv; cases hv)] at h
      cases hsub : updateData layers L src CTree.tnil (CData.mcons k dv rest) with
      | error e2 => rw [hsub] at h; simp [Except.map] at h
      | ok sub =>
        rw [hsub] at h
        simp only [Except.map, updateData.eq_2] at h
        injection h with h'
        rw [← h']
        exact keysOf_setChild_of_mem name _ t hc
  | tcons k0 c0 rest0 =>
    cases d with
    | scalar v =>
      rw [updateData.eq_5 layers L src t name .mnil v (.tcons k0 c0 rest0) hchild
        (by intro e he; cases he)] at h
      cases h
    | mnil =>
      rw [updateData.eq_8 layers L src t name .mnil .mnil (.tcons k0 c0 rest0)
        (by intro e he; cases he) hchild
        (by intro e v he hv; cases he) (by intro v hv; cases hv)] at h
      simp only [updateData.eq_2, Except.map] at h
      injection h with h'
      rw [← h']
      exact keysOf_setChild_of_mem name _ t hc
    | mcons k dv rest =>
      rw [updateData.eq_8 layers L src t name .mnil (.mcons k dv rest)
        (.tcons k0 c0 rest0)
        (by intro e he; cases he) hchild
        (by intro e v he hv; cases he) (by intro v hv; cases hv)] at h
      cases hsub : updateData layers L src (CTree.tcons k0 c0 rest0) (CData.mcons k dv rest) with
      | error e2 => rw [hsub] at h; simp [Except.map] at h
      | ok sub =>
        rw [hsub] at h
        simp only [Except.map, updateData.eq_2] at h
        injection h with h'
        rw [← h']
        exact keysOf_setChild_of_mem name _ t hc

/-- C8: registration of components or managers rejects, with a
`ComponentConfigError`, any element with no discoverable name (in
particular a null element, which is therefore never admitted as a member)
and any element whose name duplicates an existing member's; a valid
insertion preserves the explicit ordering — append puts the element at the
end, insert-before-end puts it just before the last member, and indexed
assignment replaces exactly the indexed slot; and flattening registration
through the validating list preserves the all-named and unique-names
membership invariants. -/
theorem c8_registration_validates_membership (l : List NComp) (x : Option NComp) :
    (optName x = none →
      clAppend l x = .error .noName ∧ clInsertBeforeEnd l x = .error .noName ∧
      ∀ i, clSet l i x = .error .noName)
    ∧ (∀ n, optName x = some n → n ∈ namesOf l →
      clAppend l x = .error (.duplicateName n) ∧
      clInsertBeforeEnd l x = .error (.duplicateName n) ∧
      ∀ i, clSet l i x = .error (.duplicateName n))
    ∧ (∀ c n, x = some c → c.name = some n → n ∉ namesOf l →
      clAppend l x = .ok (l ++ [c]) ∧
      clInsertBeforeEnd l x
        = .ok (l.take (l.length - 1) ++ c :: l.drop (l.length - 1)) ∧
      ∀ i, clSet l i x = .ok (l.set i c))
    ∧ (∀ (xs : PyObj) (l' : List NComp), addCompsV l xs = .ok l' →
      ((∀ m ∈ l, m.name.isSome) → ∀ m ∈ l', m.name.isSome) ∧
      ((namesOf l).Nodup → (namesOf l').Nodup)) := by
  refine ⟨?_, ?_, ?_, ?_⟩
  · intro hname
    cases x with
    | none =>
      simp [clAppend, clInsertBeforeEnd, clSet, validateMember, Except.map]
    | some c =>
      simp only [optName, Option.some_bind] at hname
      simp [clAppend, clInsertBeforeEnd, clSet, validateMember, hname, Except.map]
  · intro n hname hmem
    cases x with
    | none => simp [optName] at hname
    | some c =>
      simp only [optName, Option.some_bind] at hname
      simp [clAppend, clInsertBeforeEnd, clSet, validateMember, hname, hmem, Except.map]
  · intro c n hx hname hmem
    subst hx
    simp [clAppend, clInsertBeforeEnd, clSet, validateMember, hname, hmem, Except.map]
  · intro xs l' h
    exact addCompsV_inv xs l l' h

/-- Witness for C8 at concrete inputs: a list holding one member named
`a`; a null element and a nameless element are rejected, a second `a` is
rejected as a duplicate, a `b` is appended at the end, and the validated
flatten of `[b]` keeps names unique. -/
theorem c8_registration_validates_membership_witness :
    clAppend [⟨0, some "a"⟩] none = .error .noName
    ∧ clAppend [⟨0, some "a"⟩] (some ⟨1, none⟩) = .error .noName
    ∧ clAppend [⟨0, some "a"⟩] (some ⟨1, some "a"⟩) = .error (.duplicateName "a")
    ∧ clAppend [⟨0, some "a"⟩] (some ⟨1, some "b"⟩)
        = .ok [⟨0, some "a"⟩, ⟨1, some "b"⟩]
    ∧ (namesOf [⟨0, some "a"⟩, ⟨1, some "b"⟩]).Nodup := by
  refine ⟨?_, ?_, ?_, ?_, ?_⟩
  · exact ((c8_registration_validates_membership [⟨0, some "a"⟩] none).1 rfl).1
  · exact ((c8_registration_validates_membership [⟨0, some "a"⟩]
      (some ⟨1, none⟩)).1 rfl).1
  · exact ((c8_registration_validates_membership [⟨0, some "a"⟩]
      (some ⟨1, some "a"⟩)).2.1 "a" rfl (by decide)).1
  · exact ((c8_registration_validates_membership [⟨0, some "a"⟩]
      (some ⟨1, some "b"⟩)).2.2.1 ⟨1, some "b"⟩ "b" rfl rfl (by decide)).1
  · exact ((c8_registration_validates_membership [⟨0, some "a"⟩]
      (some ⟨1, some "b"⟩)).2.2.2
        (.ocons (.leaf (some ⟨1, some "b"⟩)) .onil)
        [⟨0, some "a"⟩, ⟨1, some "b"⟩] rfl).2 (by decide)

/-- C10: feeding `add_components` or `add_managers` an arbitrarily nested
well-formed structure of lists/tuples appends exactly its non-sequence leaf
elements, in depth-first left-to-right order, to the end of the
corresponding list, and leaves the other list unchanged. -/
theorem c10_add_components_flattens (xs : PyObj) (hwf : xs.wf = true)
    (hseq : xs.isSeq = true) (st : CMState) :
    (addComponentsM st xs).comps = st.comps ++ leavesOf xs
    ∧ (addComponentsM st xs).managers = st.managers
    ∧ (addManagersM st xs).managers = st.managers ++ leavesOf xs
    ∧ (addManagersM st xs).comps = st.comps := by
  refine ⟨?_, rfl, ?_, rfl⟩ <;>
    simp [addComponentsM, addManagersM, addComps_flatten xs hwf hseq]

/-- Witness for C10: `[[a], (b, [c]), d]` flattens to `a, b, c, d` appended
after the existing members, with the other list untouched. -/
theorem c10_add_components_flattens_witness :
    (addComponentsM ⟨[some ⟨9, some "m"⟩], [some ⟨0, some "z"⟩]⟩
      (.ocons (.ocons (.leaf (some ⟨1, some "a"⟩)) .onil)
        (.ocons (.ocons (.leaf (some ⟨2, some "b"⟩))
            (.ocons (.ocons (.leaf (some ⟨3, some "c"⟩)) .onil) .onil))
          (.ocons (.leaf (some ⟨4, some "d"⟩)) .onil)))).comps
      = [some ⟨0, some "z"⟩, some ⟨1, some "a"⟩, some ⟨2, some "b"⟩,
         some ⟨3, some "c"⟩, some ⟨4, some "d"⟩]
    ∧ (addComponentsM ⟨[some ⟨9, some "m"⟩], [some ⟨0, some "z"⟩]⟩
      (.ocons (.ocons (.leaf (some ⟨1, some "a"⟩)) .onil)
        (.ocons (.ocons (.leaf (some ⟨2, some "b"⟩))
            (.ocons (.ocons (.leaf (some ⟨3, some "c"⟩)) .onil) .onil))
          (.ocons (.leaf (some ⟨4, some "d"⟩)) .onil)))).managers
      = [some ⟨9, some "m"⟩] := by
  have h := c10_add_components_flattens
    (.ocons (.ocons (.leaf (some ⟨1, some "a"⟩)) .onil)
      (.ocons (.ocons (.leaf (some ⟨2, some "b"⟩))
          (.ocons (.ocons (.leaf (some ⟨3, some "c"⟩)) .onil) .onil))
        (.ocons (.leaf (some ⟨4, some "d"⟩)) .onil)))
    (by decide) (by decide)
    ⟨[some ⟨9, some "m"⟩], [some ⟨0, some "z"⟩]⟩
  exact ⟨h.1, h.2.1⟩

theorem checkDup_tnil (layers : List String) (s : String) :
    ∀ d : CData, checkDup layers s d .tnil = .ok () := by
  intro d
  induction d with
  | scalar v => rfl
  | mnil => rfl
  | mcons k dv rest ihdv ihrest =>
    simp [checkDup, lookupChild, ihrest]

theorem updateData_nest (layers : List String) (L : String) (s : Option String) :
    ∀ (p : List String) (k : String) (v : CVal),
      updateData layers L s .tnil (nest (k :: p) v)
        = .ok (nestTree (k :: p) [(L, s, v)]) := by
  intro p
  induction p with
  | nil =>
    intro k v
    rw [show nest [k] v = CData.mcons k (.scalar v) .mnil from rfl]
    rw [updateData.eq_3 layers L s .tnil k .mnil v (by simp [lookupChild])]
    rw [updateData.eq_2]
    rfl
  | cons k' p' ih =>
    intro k v
    rw [show nest (k :: k' :: p') v = CData.mcons k (nest (k' :: p') v) .mnil from rfl]
    rw [updateData.eq_6 layers L s .tnil k .mnil (nest (k' :: p') v)
      (by simp [lookupChild]) (by intro v0 hv; simp [nest] at hv)]
    rw [ih k' v]
    simp only [Except.map, updateData.eq_2]
    rfl

theorem findSome_single (s : Option String) (v : CVal) (l0 : String) :
    ∀ L : List String, l0 ∈ L →
      L.findSome? (lookupLayer [(l0, s, v)]) = some (s, v) := by
  intro L
  induction L with
  | nil => intro h; cases h
  | cons a L' ih =>
    intro h
    by_cases ha : l0 = a
    · subst ha
      simp [List.findSome?_cons, lookupLayer]
    · have h' : l0 ∈ L' := by
        rcases List.mem_cons.mp h with h | h
        · exact absurd h ha
        · exact h
      rw [List.findSome?_cons]
      have hl : lookupLayer [(l0, s, v)] a = none := by simp [lookupLayer, ha]
      rw [hl]
      exact ih h'

theorem nodeGetWithSource_single (layers : List String) (l0 : String)
    (s : Option String) (v : CVal) (h : l0 ∈ layers) :
    nodeGetWithSource layers [(l0, s, v)] = some (s, v) := by
  unfold nodeGetWithSource
  exact findSome_single s v l0 layers.reverse (List.mem_reverse.mpr h)

/-- One conflict-detection step on a key whose configured counterpart is a
subtree and whose new default is nested: the walk recurses, and a conflict
found below propagates. -/
theorem checkDup_mcons_tree (layers : List String) (src : String)
    (cfg sub : CTree) (k : String) (dv rest : CData) (err : CErr)
    (hl : lookupChild cfg k = some sub) (ht : sub.isTree = true)
    (hm : dv.isMap = true) (hrec : checkDup layers src dv sub = .error err) :
    checkDup layers src (.mcons k dv rest) cfg = .error err := by
  rw [checkDup.eq_3]
  rw [if_pos (show (lookupChild cfg k).isSome = true by rw [hl]; rfl)]
  have hg : getFromLayer layers cfg k (some componentConfigsLayer)
      = .ok (.subtree sub) := by
    cases sub with
    | leaf e => simp [CTree.isTree] at ht
    | tnil => simp [getFromLayer, hl]
    | tcons a b c => simp [getFromLayer, hl]
  rw [hg]
  simp only [hm, if_true, hrec]

/-- One conflict-detection step on a key whose configured counterpart is a
leaf holding a `component_configs` entry and whose new default is a scalar:
the duplicate-default error is raised, naming the new source, the recorded
source and the key. -/
theorem checkDup_mcons_value (layers : List String) (src : String)
    (cfg : CTree) (e : List NodeEntry) (k : String) (dv rest : CData)
    (s0 : Option String) (v0 : CVal)
    (hl : lookupChild cfg k = some (.leaf e))
    (hv : lookupLayer e componentConfigsLayer = some (s0, v0))
    (hm : dv.isMap = false) :
    checkDup layers src (.mcons k dv rest) cfg
      = .error (.dupDefault src (oldSourceOf layers cfg k) k) := by
  rw [checkDup.eq_3]
  rw [if_pos (show (lookupChild cfg k).isSome = true by rw [hl]; rfl)]
  have hg : getFromLayer layers cfg k (some componentConfigsLayer)
      = .ok (.value v0) := by simp [getFromLayer, hl, hv]
  rw [hg]
  simp only [hm, Bool.false_eq_true, if_false]

theorem checkDup_nest_conflict (layers : List String) (s1 s2 : String)
    (v1 v2 : CVal) (hcc : componentConfigsLayer ∈ layers) :
    ∀ (p : List String) (k : String),
      checkDup layers s2 (nest (k :: p) v2)
          (nestTree (k :: p) [(componentConfigsLayer, some s1, v1)])
        = .error (.dupDefault s2 (some s1) (lastKey k p)) := by
  intro p
  induction p with
  | nil =>
    intro k
    have hold : oldSourceOf layers
        (CTree.tcons k (.leaf [(componentConfigsLayer, some s1, v1)]) .tnil) k
        = some s1 := by
      simp [oldSourceOf, lookupChild,
        nodeGetWithSource_single layers componentConfigsLayer (some s1) v1 hcc]
    rw [show nest [k] v2 = CData.mcons k (.scalar v2) .mnil from rfl]
    rw [show nestTree [k] [(componentConfigsLayer, some s1, v1)]
        = CTree.tcons k (.leaf [(componentConfigsLayer, some s1, v1)]) .tnil from rfl]
    rw [checkDup_mcons_value layers s2 _ [(componentConfigsLayer, some s1, v1)]
      k (.scalar v2) .mnil (some s1) v1 (by simp [lookupChild])
      (by simp [lookupLayer]) rfl]
    rw [hold]
    rfl
  | cons k' p' ih =>
    intro k
    rw [show nest (k :: k' :: p') v2
        = CData.mcons k (nest (k' :: p') v2) .mnil from rfl]
    rw [show nestTree (k :: k' :: p') [(componentConfigsLayer, some s1, v1)]
        = CTree.tcons k (nestTree (k' :: p') [(componentConfigsLayer, some s1, v1)])
            .tnil from rfl]
    exact checkDup_mcons_tree layers s2
      (CTree.tcons k (nestTree (k' :: p') [(componentConfigsLayer, some s1, v1)])
        .tnil)
      (nestTree (k' :: p') [(componentConfigsLayer, some s1, v1)])
      k (nest (k' :: p') v2) .mnil _
      (by simp [lookupChild]) (by rfl) (by rfl) (ih k')

theorem applyDefaults_nest_fresh (layers : List String) (s : String)
    (hcc : componentConfigsLayer ∈ layers) (p : List String) (k : String)
    (v : CVal) :
    applyDefaults layers .tnil (nest (k :: p) v) s
      = .ok (nestTree (k :: p) [(componentConfigsLayer, some s, v)]) := by
  simp only [applyDefaults, checkDup_tnil, updateCT, bind, Except.bind]
  simp [hcc, updateData_nest]

theorem lookupLayer_nodeSet (L : String) (s : Option String) (v : CVal) :
    ∀ (e : List NodeEntry) (l : String),
      lookupLayer (nodeSet e L s v) l
        = if l = L then some (s, v) else lookupLayer e l := by
  intro e
  induction e with
  | nil =>
    intro l
    by_cases h : l = L
    · subst h; simp [nodeSet, lookupLayer]
    · simp [nodeSet, lookupLayer, h, Ne.symm h]
  | cons ent rest ih =>
    intro l
    obtain ⟨l0, s0, v0⟩ := ent
    by_cases h0 : l0 = L
    · subst h0
      simp only [nodeSet, if_pos rfl]
      by_cases hl : l = l0
      · subst hl; simp [lookupLayer]
      · simp [lookupLayer, hl, Ne.symm hl]
    · simp only [nodeSet, if_neg h0]
      by_cases hl : l = l0
      · subst hl
        simp [lookupLayer, h0]
      · simp [lookupLayer, hl, Ne.symm hl, ih]

theorem foldEntries_cons (e : List NodeEntry) (l : String) (s : Option String)
    (v : CVal) (ws : List (String × Option String × CVal)) :
    foldEntries e ((l, s, v) :: ws) = foldEntries (nodeSet e l s v) ws := rfl

theorem lookupLayer_foldEntries_not_mem :
    ∀ (ws : List (String × Option String × CVal)) (e : List NodeEntry)
      (l : String),
      l ∉ ws.map (fun w => w.1) →
      lookupLayer (foldEntries e ws) l = lookupLayer e l := by
  intro ws
  induction ws with
  | nil => intro e l _; rfl
  | cons w ws' ih =>
    intro e l hl
    obtain ⟨l0, s0, v0⟩ := w
    simp only [List.map_cons, List.mem_cons] at hl
    push_neg at hl
    rw [foldEntries_cons, ih _ _ hl.2, lookupLayer_nodeSet, if_neg hl.1]

theorem lookupLayer_foldEntries_mem :
    ∀ (ws : List (String × Option String × CVal)) (e : List NodeEntry)
      (w : String × Option String × CVal),
      (ws.map (fun x => x.1)).Nodup → w ∈ ws →
      lookupLayer (foldEntries e ws) w.1 = some (w.2.1, w.2.2) := by
  intro ws
  induction ws with
  | nil => intro e w _ hw; cases hw
  | cons w0 ws' ih =>
    intro e w hnd hw
    obtain ⟨l0, s0, v0⟩ := w0
    simp only [List.map_cons, List.nodup_cons] at hnd
    rcases List.mem_cons.mp hw with hw | hw
    · subst hw
      rw [foldEntries_cons, lookupLayer_foldEntries_not_mem ws' _ _ hnd.1,
        lookupLayer_nodeSet, if_pos rfl]
    · exact ih _ w hnd.2 hw

theorem lookupLayer_foldEntries_isSome :
    ∀ (ws : List (String × Option String × CVal)) (e : List NodeEntry)
      (l : String),
      l ∈ ws.map (fun w => w.1) →
      (lookupLayer (foldEntries e ws) l).isSome := by
  intro ws
  induction ws with
  | nil => intro e l h; cases h
  | cons w0 ws' ih =>
    intro e l h
    obtain ⟨l0, s0, v0⟩ := w0
    simp only [List.map_cons, List.mem_cons] at h
    rcases h with h | h
    · subst h
      by_cases hm : l ∈ ws'.map (fun w => w.1)
      · exact ih _ _ hm
      · rw [foldEntries_cons, lookupLayer_foldEntries_not_mem ws' _ _ hm,
          lookupLayer_nodeSet, if_pos rfl]
        rfl
    · exact ih _ _ h

theorem updateCT_single_leaf (layers : List String) (k l : String)
    (s : Option String) (v : CVal) (e : List NodeEntry) (hl : l ∈ layers) :
    updateCT layers (.tcons k (.leaf e) .tnil) (.mcons k (.scalar v) .mnil)
        (some l) s
      = .ok (.tcons k (.leaf (nodeSet e l s v)) .tnil) := by
  simp only [updateCT, Option.getD]
  rw [if_pos hl]
  rw [updateData.eq_4 layers l s _ k .mnil e v (by simp [lookupChild])]
  rw [updateData.eq_2]
  simp [setChild]

theorem applyWrites_leaf (layers : List String) (k : String) :
    ∀ (ws : List (String × Option String × CVal)) (e : List NodeEntry),
      (∀ x ∈ ws, x.1 ∈ layers) →
      applyWrites layers k (.tcons k (.leaf e) .tnil) ws
        = .ok (.tcons k (.leaf (foldEntries e ws)) .tnil) := by
  intro ws
  induction ws with
  | nil => intro e _; rfl
  | cons w ws' ih =>
    intro e hlay
    obtain ⟨l, s, v⟩ := w
    have hl : l ∈ layers := hlay _ (List.mem_cons_self _ _)
    simp only [applyWrites]
    rw [updateCT_single_leaf layers k l s v e hl]
    rw [foldEntries_cons]
    exact ih _ (fun x hx => hlay x (List.mem_cons_of_mem _ hx))

theorem applyWrites_shape (layers : List String) (k : String)
    (l0 : String) (s0 : Option String) (v0 : CVal)
    (ws' : List (String × Option String × CVal))
    (hl0 : l0 ∈ layers) (hlay : ∀ x ∈ ws', x.1 ∈ layers) :
    applyWrites layers k .tnil ((l0, s0, v0) :: ws')
      = .ok (.tcons k (.leaf (foldEntries [(l0, s0, v0)] ws')) .tnil) := by
  simp only [applyWrites]
  have h1 : updateCT layers .tnil (.mcons k (.scalar v0) .mnil) (some l0) s0
      = .ok (.tcons k (.leaf [(l0, s0, v0)]) .tnil) := by
    simp only [updateCT, Option.getD]
    rw [if_pos hl0]
    rw [updateData.eq_3 layers l0 s0 .tnil k .mnil v0 (by simp [lookupChild])]
    rw [updateData.eq_2]
    rfl
  rw [h1]
  exact applyWrites_leaf layers k ws' [(l0, s0, v0)] hlay

theorem findSome_lookupLayer :
    ∀ (L : List String) (e : List NodeEntry),
      L.findSome? (lookupLayer e)
        = match (L.filter (fun l => (lookupLayer e l).isSome)).head? with
          | some l => lookupLayer e l
          | none => none := by
  intro L e
  induction L with
  | nil => rfl
  | cons a L' ih =>
    cases ha : lookupLayer e a with
    | some p =>
      have hsome : (lookupLayer e a).isSome = true := by rw [ha]; rfl
      simp [List.findSome?_cons, ha, List.filter_cons, hsome]
    | none =>
      have hsome : (lookupLayer e a).isSome = false := by rw [ha]; rfl
      simp only [List.findSome?_cons, ha, List.filter_cons, hsome,
        Bool.false_eq_true, if_false]
      exact ih

/-- Reading a node resolves at the last layer, in ascending priority order,
that holds an entry. -/
theorem nodeGetWithSource_lastActive (layers : List String)
    (e : List NodeEntry) (l : String)
    (h : (layers.filter (fun x => (lookupLayer e x).isSome)).getLast? = some l) :
    nodeGetWithSource layers e = lookupLayer e l := by
  unfold nodeGetWithSource
  rw [findSome_lookupLayer]
  rw [List.filter_reverse]
  rw [List.head?_reverse]
  rw [h]

/-- C5: for every ordered layer set and every sequence of writes to one
key, one write per layer, reading the key back returns the value of the
write whose layer comes last (highest priority) among the writing layers;
and concretely, with layers `[inner, outer]`, writing `a := 1` at `inner`
from `s1` and `a := 2` at `outer` from `s2` makes `tree.a` read `2` and
`provenance(a)` report both entries in ascending layer order. -/
theorem c5_read_resolves_last_writing_layer :
    (∀ (layers : List String) (k : String)
       (ws : List (String × Option String × CVal)) (T : CTree)
       (w : String × Option String × CVal),
       (ws.map (fun x => x.1)).Nodup →
       (∀ x ∈ ws, x.1 ∈ layers) →
       applyWrites layers k .tnil ws = .ok T →
       w ∈ ws →
       w.1 = (layers.filter
         (fun x => decide (x ∈ ws.map (fun y => y.1)))).getLastD "" →
       getScalar layers T [k] = some w.2.2)
    ∧ applyWrites ["inner", "outer"] "a" .tnil
        [("inner", some "s1", .int 1), ("outer", some "s2", .int 2)]
      = .ok (.tcons "a"
          (.leaf [("inner", some "s1", .int 1), ("outer", some "s2", .int 2)])
          .tnil)
    ∧ getScalar ["inner", "outer"]
        (.tcons "a"
          (.leaf [("inner", some "s1", .int 1), ("outer", some "s2", .int 2)])
          .tnil) ["a"]
      = some (.int 2)
    ∧ provenance ["inner", "outer"]
        (.tcons "a"
          (.leaf [("inner", some "s1", .int 1), ("outer", some "s2", .int 2)])
          .tnil) "a"
      = .ok [("inner", some "s1", .int 1), ("outer", some "s2", .int 2)] := by
  refine ⟨?_, by rfl, by decide, by rfl⟩
  intro layers k ws T w hnd hlay happ hw hlast
  cases ws with
  | nil => cases hw
  | cons w0 ws' =>
    obtain ⟨l0, s0, v0⟩ := w0
    have hshape := applyWrites_shape layers k l0 s0 v0 ws'
      (hlay _ (List.mem_cons_self _ _))
      (fun x hx => hlay x (List.mem_cons_of_mem _ hx))
    rw [happ] at hshape
    injection hshape with hT
    subst hT
    have hE : foldEntries [(l0, s0, v0)] ws'
        = foldEntries [] ((l0, s0, v0) :: ws') := rfl
    rw [hE]
    have hg : getScalar layers
        (CTree.tcons k (.leaf (foldEntries [] ((l0, s0, v0) :: ws'))) .tnil) [k]
        = (nodeGetWithSource layers (foldEntries [] ((l0, s0, v0) :: ws'))).map
            (fun p => p.2) := by
      simp [getScalar, lookupChild]
    rw [hg]
    -- the two filters agree
    have hfilter : layers.filter
        (fun x => (lookupLayer (foldEntries [] ((l0, s0, v0) :: ws')) x).isSome)
        = layers.filter
          (fun x => decide (x ∈ ((l0, s0, v0) :: ws').map (fun y => y.1))) := by
      apply List.filter_congr
      intro x _
      by_cases hm : x ∈ ((l0, s0, v0) :: ws').map (fun y => y.1)
      · rw [decide_eq_true hm]
        exact lookupLayer_foldEntries_isSome _ [] _ hm
      · rw [decide_eq_false hm, lookupLayer_foldEntries_not_mem _ [] _ hm]
        rfl
    -- the active layer list is non-empty: it contains w.1
    have hmemAct : w.1 ∈ layers.filter
        (fun x => decide (x ∈ ((l0, s0, v0) :: ws').map (fun y => y.1))) := by
      rw [List.mem_filter]
      refine ⟨hlay w hw, ?_⟩
      simp only [decide_eq_true_eq]
      exact List.mem_map.mpr ⟨w, hw, rfl⟩
    have hne : layers.filter
        (fun x => decide (x ∈ ((l0, s0, v0) :: ws').map (fun y => y.1))) ≠ [] :=
      List.ne_nil_of_mem hmemAct
    obtain ⟨a, ha⟩ := Option.isSome_iff_exists.mp (List.getLast?_isSome.mpr hne)
    have hwa : w.1 = a := by
      rw [hlast, List.getLastD_eq_getLast?, ha]
      rfl
    have hread := nodeGetWithSource_lastActive layers
      (foldEntries [] ((l0, s0, v0) :: ws')) w.1
      (by rw [hfilter, ha, ← hwa])
    rw [hread]
    rw [lookupLayer_foldEntries_mem ((l0, s0, v0) :: ws') [] w hnd hw]
    rfl

/-- Witness for C5's general part: layers `[lo, hi]`, writes at `lo` then
`hi`; the read returns the `hi` write's value. -/
theorem c5_read_resolves_last_writing_layer_witness :
    getScalar ["lo", "hi"]
      (.tcons "a" (.leaf [("lo", some "p", .int 7), ("hi", some "q", .int 9)])
        .tnil) ["a"]
      = some (.int 9) := by
  have h := c5_read_resolves_last_writing_layer.1 ["lo", "hi"] "a"
    [("lo", some "p", .int 7), ("hi", some "q", .int 9)]
    (.tcons "a" (.leaf [("lo", some "p", .int 7), ("hi", some "q", .int 9)])
      .tnil)
    ("hi", some "q", .int 9)
    (by decide) (by decide) (by rfl) (by decide) (by decide)
  exact h

/-- C3: two components whose default configurations assign differing
scalars to the same key path — including falsy values such as zero — do not
merge: the first merges cleanly, and merging the second fails with the
duplicate-default `ComponentConfigError` naming the new source, the
recorded old source, and the conflicting key.  Absence of a key is never
identified with presence of a falsy value: the recorded falsy scalar still
triggers the conflict. -/
theorem c3_differing_default_scalars_conflict (layers : List String)
    (s1 s2 : String) (v1 v2 : CVal) (k : String) (p : List String)
    (hcc : componentConfigsLayer ∈ layers) (hne : v1 ≠ v2) :
    applyDefaults layers .tnil (nest (k :: p) v1) s1
      = .ok (nestTree (k :: p) [(componentConfigsLayer, some s1, v1)])
    ∧ applyDefaults layers
        (nestTree (k :: p) [(componentConfigsLayer, some s1, v1)])
        (nest (k :: p) v2) s2
      = .error (.dupDefault s2 (some s1) (lastKey k p)) := by
  refine ⟨applyDefaults_nest_fresh layers s1 hcc p k v1, ?_⟩
  simp only [applyDefaults, checkDup_nest_conflict layers s1 s2 v1 v2 hcc p k,
    bind, Except.bind]

/-- Witness for C3 at a falsy recorded value: `{x: {y: 0}}` from
`compA.py` followed by `{x: {y: 1}}` from `compB.py` conflicts, naming both
sources and the key `y`. -/
theorem c3_differing_default_scalars_conflict_witness :
    applyDefaults ["base", "component_configs"] .tnil
        (nest ["x", "y"] (.int 0)) "compA.py"
      = .ok (nestTree ["x", "y"]
          [("component_configs", some "compA.py", .int 0)])
    ∧ applyDefaults ["base", "component_configs"]
        (nestTree ["x", "y"] [("component_configs", some "compA.py", .int 0)])
        (nest ["x", "y"] (.int 1)) "compB.py"
      = .error (.dupDefault "compB.py" (some "compA.py") "y") :=
  c3_differing_default_scalars_conflict ["base", "component_configs"]
    "compA.py" "compB.py" (.int 0) (.int 1) "x" ["y"] (by decide) (by decide)

theorem getScalarAtLayer_nil (t : CTree) (L : String) :
    getScalarAtLayer t [] L = none := rfl

theorem getScalarAtLayer_single (t : CTree) (k L : String) :
    getScalarAtLayer t [k] L
      = match lookupChild t k with
        | some (.leaf e) => (lookupLayer e L).map (fun q => q.2)
        | _ => none := rfl

theorem getScalarAtLayer_cons (t : CTree) (k k2 : String) (ks : List String)
    (L : String) :
    getScalarAtLayer t (k :: k2 :: ks) L
      = match lookupChild t k with
        | some (.leaf _) => none
        | some sub => getScalarAtLayer sub (k2 :: ks) L
        | none => none := rfl

theorem getScalarAtLayer_tnil (p : List String) (L : String) :
    getScalarAtLayer .tnil p L = none := by
  cases p with
  | nil => rfl
  | cons k ks => cases ks with
    | nil => rfl
    | cons k2 ks' => rfl

theorem setChild_isTree (t : CTree) (k : String) (c : CTree)
    (ht : t.isTree = true) : (setChild t k c).isTree = true := by
  cases t with
  | leaf e => simp [CTree.isTree] at ht
  | tnil => rfl
  | tcons k0 c0 rest =>
    by_cases hk : k = k0 <;> simp [setChild, hk, CTree.isTree]

theorem lookupChild_wf :
    ∀ (t : CTree) (k : String) (c : CTree),
      wfT t = true → lookupChild t k = some c → wfT c = true := by
  intro t
  induction t with
  | leaf e => intro k c _ h; simp [lookupChild] at h
  | tnil => intro k c _ h; simp [lookupChild] at h
  | tcons k0 c0 rest ihc ihrest =>
    intro k c hw h
    simp only [wfT, Bool.and_eq_true] at hw
    by_cases hk : k = k0
    · simp only [lookupChild, if_pos hk] at h
      cases h
      exact hw.1.1
    · simp only [lookupChild, if_neg hk] at h
      exact ihrest k c hw.1.2 h

theorem wfT_setChild :
    ∀ (t : CTree) (k : String) (c : CTree),
      t.isTree = true → wfT t = true → wfT c = true →
      wfT (setChild t k c) = true := by
  intro t
  induction t with
  | leaf e => intro k c ht _ _; simp [CTree.isTree] at ht
  | tnil => intro k c _ _ hc; simp [setChild, wfT, hc, CTree.isTree]
  | tcons k0 c0 rest ihc ihrest =>
    intro k c _ hw hc
    simp only [wfT, Bool.and_eq_true] at hw
    by_cases hk : k = k0
    · simp [setChild, hk, wfT, hc, hw.1.2, hw.2]
    · simp only [setChild, if_neg hk, wfT, Bool.and_eq_true]
      exact ⟨⟨hw.1.1, ihrest k c hw.2 hw.1.2 hc⟩,
        setChild_isTree rest k c hw.2⟩

theorem lookupChild_setChild_self :
    ∀ (t : CTree) (k : String) (c : CTree),
      t.isTree = true → wfT t = true →
      lookupChild (setChild t k c) k = some c := by
  intro t
  induction t with
  | leaf e => intro k c ht _; simp [CTree.isTree] at ht
  | tnil => intro k c _ _; simp [setChild, lookupChild]
  | tcons k0 c0 rest ihc ihrest =>
    intro k c _ hw
    simp only [wfT, Bool.and_eq_true] at hw
    by_cases hk : k = k0
    · simp [setChild, hk, lookupChild]
    · simp only [setChild, if_neg hk, lookupChild, if_neg hk]
      exact ihrest k c hw.2 hw.1.2

theorem lookupChild_setChild_ne :
    ∀ (t : CTree) (k k' : String) (c : CTree), k' ≠ k →
      lookupChild (setChild t k c) k' = lookupChild t k' := by
  intro t
  induction t with
  | leaf e => intro k k' c _; rfl
  | tnil => intro k k' c h; simp [setChild, lookupChild, h]
  | tcons k0 c0 rest ihc ihrest =>
    intro k k' c h
    by_cases hk : k = k0
    · subst hk
      simp only [setChild, if_pos rfl, lookupChild, if_neg h]
    · simp only [setChild, if_neg hk, lookupChild]
      by_cases h' : k' = k0
      · simp [h']
      · simp only [if_neg h']
        exact ihrest k k' c h

/-- A successful update of a well-formed interior tree yields a well-formed
interior tree. -/
theorem updateData_wf (layers : List String) (L : String) (s : Option String) :
    ∀ (d : CData) (t t' : CTree),
      t.isTree = true → wfT t = true →
      updateData layers L s t d = .ok t' →
      t'.isTree = true ∧ wfT t' = true := by
  intro d
  induction d with
  | scalar v => intro t t' _ _ h; rw [updateData.eq_1] at h; cases h
  | mnil => intro t t' ht hw h; rw [updateData.eq_2] at h; cases h; exact ⟨ht, hw⟩
  | mcons k dv rest ihdv ihrest =>
    intro t t' ht hw h
    cases hc : lookupChild t k with
    | none =>
      cases dv with
      | scalar v =>
        rw [updateData.eq_3 layers L s t k rest v hc] at h
        refine ihrest _ t' (setChild_isTree t k _ ht)
          (wfT_setChild t k _ ht hw ?_) h
        rfl
      | mnil =>
        rw [updateData.eq_6 layers L s t k rest .mnil hc
          (by intro v hv; cases hv)] at h
        rw [updateData.eq_2] at h
        simp only [Except.map] at h
        refine ihrest _ t' (setChild_isTree t k _ ht)
          (wfT_setChild t k _ ht hw ?_) h
        rfl
      | mcons k2 dv2 rest2 =>
        rw [updateData.eq_6 layers L s t k rest (.mcons k2 dv2 rest2) hc
          (by intro v hv; cases hv)] at h
        cases hsub : updateData layers L s .tnil (.mcons k2 dv2 rest2) with
        | error e => rw [hsub] at h; simp [Except.map] at h
        | ok sub =>
          rw [hsub] at h
          simp only [Except.map] at h
          have hsubwf := ihdv .tnil sub rfl rfl hsub
          exact ihrest _ t' (setChild_isTree t k _ ht)
            (wfT_setChild t k _ ht hw hsubwf.2) h
    | some child =>
      have hcw : wfT child = true := lookupChild_wf t k child hw hc
      cases child with
      | leaf e =>
        cases dv with
        | scalar v =>
          rw [updateData.eq_4 layers L s t k rest e v hc] at h
          refine ihrest _ t' (setChild_isTree t k _ ht)
            (wfT_setChild t k _ ht hw ?_) h
          rfl
        | mnil =>
          rw [updateData.eq_7 layers L s t k rest .mnil e hc
            (by intro v hv; cases hv)] at h
          cases h
        | mcons k2 dv2 rest2 =>
          rw [updateData.eq_7 layers L s t k rest (.mcons k2 dv2 rest2) e hc
            (by intro v hv; cases hv)] at h
          cases h
      | tnil =>
        cases dv with
        | scalar v =>
          rw [updateData.eq_5 layers L s t k rest v .tnil hc
            (by intro e he; cases he)] at h
          cases h
        | mnil =>
          rw [updateData.eq_8 layers L s t k rest .mnil .tnil
            (by intro e he; cases he) hc
            (by intro e v he hv; cases he) (by intro v hv; cases hv)] at h
          rw [updateData.eq_2] at h
          simp only [Except.map] at h
          refine ihrest _ t' (setChild_isTree t k _ ht)
            (wfT_setChild t k _ ht hw ?_) h
          rfl
        | mcons k2 dv2 rest2 =>
          rw [updateData.eq_8 layers L s t k rest (.mcons k2 dv2 rest2) .tnil
            (by intro e he; cases he) hc
            (by intro e v he hv; cases he) (by intro v hv; cases hv)] at h
          cases hsub : updateData layers L s .tnil (.mcons k2 dv2 rest2) with
          | error e => rw [hsub] at h; simp [Except.map] at h
          | ok sub =>
            rw [hsub] at h
            simp only [Except.map] at h
            have hsubwf := ihdv .tnil sub rfl rfl hsub
            exact ihrest _ t' (setChild_isTree t k _ ht)
              (wfT_setChild t k _ ht hw hsubwf.2) h
      | tcons k1 c1 rest1 =>
        cases dv with
        | scalar v =>
          rw [updateData.eq_5 layers L s t k rest v (.tcons k1 c1 rest1) hc
            (by intro e he; cases he)] at h
          cases h
        | mnil =>
          rw [updateData.eq_8 layers L s t k rest .mnil (.tcons k1 c1 rest1)
            (by intro e he; cases he) hc
            (by intro e v he hv; cases he) (by intro v hv; cases hv)] at h
          rw [updateData.eq_2] at h
          simp only [Except.map] at h
          exact ihrest _ t' (setChild_isTree t k _ ht)
            (wfT_setChild t k _ ht hw hcw) h
        | mcons k2 dv2 rest2 =>
          rw [updateData.eq_8 layers L s t k rest (.mcons k2 dv2 rest2)
            (.tcons k1 c1 rest1)
            (by intro e he; cases he) hc
            (by intro e v he hv; cases he) (by intro v hv; cases hv)] at h
          cases hsub : updateData layers L s (.tcons k1 c1 rest1)
              (.mcons k2 dv2 rest2) with
          | error e => rw [hsub] at h; simp [Except.map] at h
          | ok sub =>
            rw [hsub] at h
            simp only [Except.map] at h
            have hsubwf := ihdv (.tcons k1 c1 rest1) sub rfl hcw hsub
            exact ihrest _ t' (setChild_isTree t k _ ht)
              (wfT_setChild t k _ ht hw hsubwf.2) h

/-- Inversion of one update step: a successful update of `{k: dv, ...rest}`
first rewrites the child at `k` — writing a scalar into a fresh or leaf
child, or merging a map into a fresh or interior child — and then continues
with the remaining keys. -/
theorem updateData_mcons_inv (layers : List String) (L : String)
    (s : Option String) (t : CTree) (k : String) (dv rest : CData) (t' : CTree)
    (h : updateData layers L s t (.mcons k dv rest) = .ok t') :
    ∃ t₁, updateData layers L s t₁ rest = .ok t' ∧
      ((∃ v0, dv = .scalar v0 ∧
         ((lookupChild t k = none
             ∧ t₁ = setChild t k (.leaf (nodeSet [] L s v0)))
          ∨ (∃ e, lookupChild t k = some (.leaf e)
             ∧ t₁ = setChild t k (.leaf (nodeSet e L s v0)))))
       ∨ (dv.isMap = true ∧
          ((lookupChild t k = none
             ∧ ∃ sub, updateData layers L s .tnil dv = .ok sub
               ∧ t₁ = setChild t k sub)
           ∨ (∃ sub0, lookupChild t k = some sub0 ∧ sub0.isTree = true
               ∧ ∃ sub, updateData layers L s sub0 dv = .ok sub
                 ∧ t₁ = setChild t k sub)))) := by
  cases hc : lookupChild t k with
  | none =>
    cases dv with
    | scalar v =>
      rw [updateData.eq_3 layers L s t k rest v hc] at h
      exact ⟨_, h, Or.inl ⟨v, rfl, Or.inl ⟨rfl, rfl⟩⟩⟩
    | mnil =>
      rw [updateData.eq_6 layers L s t k rest .mnil hc
        (by intro v hv; cases hv)] at h
      rw [updateData.eq_2] at h
      simp only [Except.map] at h
      exact ⟨_, h, Or.inr ⟨rfl, Or.inl ⟨rfl, .tnil, updateData.eq_2 _ _ _ _, rfl⟩⟩⟩
    | mcons k2 dv2 rest2 =>
      rw [updateData.eq_6 layers L s t k rest (.mcons k2 dv2 rest2) hc
        (by intro v hv; cases hv)] at h
      cases hsub : updateData layers L s .tnil (.mcons k2 dv2 rest2) with
      | error e => rw [hsub] at h; simp [Except.map] at h
      | ok sub =>
        rw [hsub] at h
        simp only [Except.map] at h
        exact ⟨_, h, Or.inr ⟨rfl, Or.inl ⟨rfl, sub, rfl, rfl⟩⟩⟩
  | some child =>
    cases child with
    | leaf e =>
      cases dv with
      | scalar v =>
        rw [updateData.eq_4 layers L s t k rest e v hc] at h
        exact ⟨_, h, Or.inl ⟨v, rfl, Or.inr ⟨e, rfl, rfl⟩⟩⟩
      | mnil =>
        rw [updateData.eq_7 layers L s t k rest .mnil e hc
          (by intro v hv; cases hv)] at h
        cases h
      | mcons k2 dv2 rest2 =>
        rw [updateData.eq_7 layers L s t k rest (.mcons k2 dv2 rest2) e hc
          (by intro v hv; cases hv)] at h
        cases h
    | tnil =>
      cases dv with
      | scalar v =>
        rw [updateData.eq_5 layers L s t k rest v .tnil hc
          (by intro e he; cases he)] at h
        cases h
      | mnil =>
        rw [updateData.eq_8 layers L s t k rest .mnil .tnil
          (by intro e he; cases he) hc
          (by intro e v he hv; cases he) (by intro v hv; cases hv)] at h
        rw [updateData.eq_2] at h
        simp only [Except.map] at h
        exact ⟨_, h, Or.inr ⟨rfl, Or.inr
          ⟨.tnil, rfl, rfl, .tnil, updateData.eq_2 _ _ _ _, rfl⟩⟩⟩
      | mcons k2 dv2 rest2 =>
        rw [updateData.eq_8 layers L s t k rest (.mcons k2 dv2 rest2) .tnil
          (by intro e he; cases he) hc
          (by intro e v he hv; cases he) (by intro v hv; cases hv)] at h
        cases hsub : updateData layers L s .tnil (.mcons k2 dv2 rest2) with
        | error e => rw [hsub] at h; simp [Except.map] at h
        | ok sub =>
          rw [hsub] at h
          simp only [Except.map] at h
          exact ⟨_, h, Or.inr ⟨rfl, Or.inr ⟨.tnil, rfl, rfl, sub, hsub, rfl⟩⟩⟩
    | tcons k1 c1 rest1 =>
      cases dv with
      | scalar v =>
        rw [updateData.eq_5 layers L s t k rest v (.tcons k1 c1 rest1) hc
          (by intro e he; cases he)] at h
        cases h
      | mnil =>
        rw [updateData.eq_8 layers L s t k rest .mnil (.tcons k1 c1 rest1)
          (by intro e he; cases he) hc
          (by intro e v he hv; cases he) (by intro v hv; cases hv)] at h
        rw [updateData.eq_2] at h
        simp only [Except.map] at h
        exact ⟨_, h, Or.inr ⟨rfl, Or.inr
          ⟨.tcons k1 c1 rest1, rfl, rfl, .tcons k1 c1 rest1,
            updateData.eq_2 _ _ _ _, rfl⟩⟩⟩
      | mcons k2 dv2 rest2 =>
        rw [updateData.eq_8 layers L s t k rest (.mcons k2 dv2 rest2)
          (.tcons k1 c1 rest1)
          (by intro e he; cases he) hc
          (by intro e v he hv; cases he) (by intro v hv; cases hv)] at h
        cases hsub : updateData layers L s (.tcons k1 c1 rest1)
            (.mcons k2 dv2 rest2) with
        | error e => rw [hsub] at h; simp [Except.map] at h
        | ok sub =>
          rw [hsub] at h
          simp only [Except.map] at h
          exact ⟨_, h, Or.inr ⟨rfl, Or.inr
            ⟨.tcons k1 c1 rest1, rfl, rfl, sub, hsub, rfl⟩⟩⟩

theorem dataPath_scalar_some (v0 v : CVal) (p : List String)
    (h : dataPath (.scalar v0) p = some v) : p = [] ∧ v = v0 := by
  cases p with
  | nil =>
    simp only [dataPath] at h
    exact ⟨rfl, (Option.some.inj h).symm⟩
  | cons k ks => simp [dataPath] at h

theorem dataPath_map_nil_none (dv : CData) (hm : dv.isMap = true) :
    dataPath dv [] = none := by
  cases dv with
  | scalar v => simp [CData.isMap] at hm
  | mnil => rfl
  | mcons k d r => rfl

theorem dataPath_mcons_some (k : String) (dv rest : CData) (k' : String)
    (ks : List String) (v : CVal)
    (h : dataPath (.mcons k dv rest) (k' :: ks) = some v) :
    dataPath rest (k' :: ks) = some v
    ∨ (dataPath rest (k' :: ks) = none ∧ k' = k ∧ dataPath dv ks = some v) := by
  simp only [dataPath] at h
  cases hr : dataPath rest (k' :: ks) with
  | some v2 =>
    rw [hr] at h
    exact Or.inl h
  | none =>
    rw [hr] at h
    by_cases hk : k' = k
    · rw [if_pos hk] at h
      exact Or.inr ⟨rfl, hk, h⟩
    · rw [if_neg hk] at h
      cases h

theorem dataPath_mcons_none (k : String) (dv rest : CData) (k' : String)
    (ks : List String)
    (h : dataPath (.mcons k dv rest) (k' :: ks) = none) :
    dataPath rest (k' :: ks) = none ∧ (k' = k → dataPath dv ks = none) := by
  simp only [dataPath] at h
  cases hr : dataPath rest (k' :: ks) with
  | some v2 => rw [hr] at h; cases h
  | none =>
    rw [hr] at h
    refine ⟨rfl, ?_⟩
    intro hk
    rw [if_pos hk] at h
    exact h

theorem dataPath_nest (v : CVal) :
    ∀ q : List String, dataPath (nest q v) q = some v := by
  intro q
  induction q with
  | nil => rfl
  | cons k p ih =>
    simp [nest, dataPath, ih]

theorem gsal_head_none (t : CTree) (k : String) (ks : List String) (L : String)
    (h : lookupChild t k = none) : getScalarAtLayer t (k :: ks) L = none := by
  cases ks with
  | nil => rw [getScalarAtLayer_single, h]
  | cons a b => rw [getScalarAtLayer_cons, h]

theorem gsal_single_leaf (t : CTree) (k : String) (L : String)
    (e : List NodeEntry) (h : lookupChild t k = some (.leaf e)) :
    getScalarAtLayer t [k] L = (lookupLayer e L).map (fun q => q.2) := by
  rw [getScalarAtLayer_single, h]

theorem gsal_cons_leaf (t : CTree) (k a : String) (b : List String) (L : String)
    (e : List NodeEntry) (h : lookupChild t k = some (.leaf e)) :
    getScalarAtLayer t (k :: a :: b) L = none := by
  rw [getScalarAtLayer_cons, h]

theorem gsal_single_tree (t sub : CTree) (k : String) (L : String)
    (h : lookupChild t k = some sub) (ht : sub.isTree = true) :
    getScalarAtLayer t [k] L = none := by
  rw [getScalarAtLayer_single, h]
  cases sub with
  | leaf e => simp [CTree.isTree] at ht
  | tnil => rfl
  | tcons a b c => rfl

theorem gsal_cons_tree (t sub : CTree) (k a : String) (b : List String)
    (L : String) (h : lookupChild t k = some sub) (ht : sub.isTree = true) :
    getScalarAtLayer t (k :: a :: b) L = getScalarAtLayer sub (a :: b) L := by
  rw [getScalarAtLayer_cons, h]
  cases sub with
  | leaf e => simp [CTree.isTree] at ht
  | tnil => rfl
  | tcons x y z => rfl

theorem gsal_head_congr (t1 t2 : CTree) (k : String) (ks : List String)
    (L : String) (hEq : lookupChild t1 k = lookupChild t2 k) :
    getScalarAtLayer t1 (k :: ks) L = getScalarAtLayer t2 (k :: ks) L := by
  cases ks with
  | nil => rw [getScalarAtLayer_single, getScalarAtLayer_single, hEq]
  | cons a b => rw [getScalarAtLayer_cons, getScalarAtLayer_cons, hEq]

/-- The two path properties of a successful update: every scalar path of
the data reads back at the written layer (later entries of a duplicated
key shadowing earlier ones), and every path the data does not assign reads
exactly as before, at every layer. -/
theorem updateData_path_props (layers : List String) (L : String) :
    ∀ (d : CData) (s : Option String),
      (∀ (t t' : CTree) (p : List String) (v : CVal),
        t.isTree = true → wfT t = true →
        updateData layers L s t d = .ok t' → dataPath d p = some v →
        getScalarAtLayer t' p L = some v)
      ∧ (∀ (t t' : CTree) (p : List String) (L' : String),
        t.isTree = true → wfT t = true →
        updateData layers L s t d = .ok t' → dataPath d p = none →
        getScalarAtLayer t' p L' = getScalarAtLayer t p L') := by
  intro d
  induction d with
  | scalar v =>
    intro s
    constructor
    · intro t t' p v0 _ _ h _; rw [updateData.eq_1] at h; cases h
    · intro t t' p L' _ _ h _; rw [updateData.eq_1] at h; cases h
  | mnil =>
    intro s
    constructor
    · intro t t' p v0 _ _ h hp; simp [dataPath] at hp
    · intro t t' p L' _ _ h _
      rw [updateData.eq_2] at h; cases h; rfl
  | mcons k dv rest ihdv ihrest =>
    intro s
    have stepwf : ∀ (t t₁ : CTree), t.isTree = true → wfT t = true →
        ((∃ v0, dv = .scalar v0 ∧
           ((lookupChild t k = none
               ∧ t₁ = setChild t k (.leaf (nodeSet [] L s v0)))
            ∨ (∃ e, lookupChild t k = some (.leaf e)
               ∧ t₁ = setChild t k (.leaf (nodeSet e L s v0)))))
         ∨ (dv.isMap = true ∧
            ((lookupChild t k = none
               ∧ ∃ sub, updateData layers L s .tnil dv = .ok sub
                 ∧ t₁ = setChild t k sub)
             ∨ (∃ sub0, lookupChild t k = some sub0 ∧ sub0.isTree = true
                 ∧ ∃ sub, updateData layers L s sub0 dv = .ok sub
                   ∧ t₁ = setChild t k sub)))) →
        t₁.isTree = true ∧ wfT t₁ = true := by
      intro t t₁ htt hwt hstep
      rcases hstep with ⟨v0, hdv, hcase | hcase⟩ | ⟨hm, hcase | hcase⟩
      · obtain ⟨hc, ht1⟩ := hcase; subst ht1
        exact ⟨setChild_isTree t k _ htt, wfT_setChild t k _ htt hwt rfl⟩
      · obtain ⟨e, hc, ht1⟩ := hcase; subst ht1
        exact ⟨setChild_isTree t k _ htt, wfT_setChild t k _ htt hwt rfl⟩
      · obtain ⟨hc, sub, hsub, ht1⟩ := hcase; subst ht1
        have hs := updateData_wf layers L s dv .tnil sub rfl rfl hsub
        exact ⟨setChild_isTree t k _ htt, wfT_setChild t k _ htt hwt hs.2⟩
      · obtain ⟨sub0, hc, hst, sub, hsub, ht1⟩ := hcase; subst ht1
        have hw0 := lookupChild_wf t k sub0 hwt hc
        have hs := updateData_wf layers L s dv sub0 sub hst hw0 hsub
        exact ⟨setChild_isTree t k _ htt, wfT_setChild t k _ htt hwt hs.2⟩
    constructor
    · -- readback
      intro t t' p v htt hwt h hp
      obtain ⟨t₁, hrest, hstep⟩ := updateData_mcons_inv layers L s t k dv rest t' h
      have ht₁ := stepwf t t₁ htt hwt hstep
      cases p with
      | nil => simp [dataPath] at hp
      | cons k' ks =>
        rcases dataPath_mcons_some k dv rest k' ks v hp with hA | ⟨hrnone, hk, hdvp⟩
        · exact (ihrest s).1 t₁ t' (k' :: ks) v ht₁.1 ht₁.2 hrest hA
        · subst hk
          rw [(ihrest s).2 t₁ t' (k' :: ks) L ht₁.1 ht₁.2 hrest hrnone]
          rcases hstep with ⟨v0, hdv, hcase | hcase⟩ | ⟨hm, hcase | hcase⟩
          · obtain ⟨hc, ht1⟩ := hcase
            subst hdv ht1
            obtain ⟨hks, hv⟩ := dataPath_scalar_some v0 v ks hdvp
            subst hks hv
            rw [gsal_single_leaf _ k' L _
              (lookupChild_setChild_self t k' _ htt hwt)]
            rw [lookupLayer_nodeSet, if_pos rfl]
            rfl
          · obtain ⟨e, hc, ht1⟩ := hcase
            subst hdv ht1
            obtain ⟨hks, hv⟩ := dataPath_scalar_some v0 v ks hdvp
            subst hks hv
            rw [gsal_single_leaf _ k' L _
              (lookupChild_setChild_self t k' _ htt hwt)]
            rw [lookupLayer_nodeSet, if_pos rfl]
            rfl
          · obtain ⟨hc, sub, hsub, ht1⟩ := hcase
            subst ht1
            cases ks with
            | nil => rw [dataPath_map_nil_none dv hm] at hdvp; cases hdvp
            | cons k2 ks' =>
              have hs := updateData_wf layers L s dv .tnil sub rfl rfl hsub
              rw [gsal_cons_tree _ sub k' k2 ks' L
                (lookupChild_setChild_self t k' _ htt hwt) hs.1]
              exact (ihdv s).1 .tnil sub (k2 :: ks') v rfl rfl hsub hdvp
          · obtain ⟨sub0, hc, hst, sub, hsub, ht1⟩ := hcase
            subst ht1
            cases ks with
            | nil => rw [dataPath_map_nil_none dv hm] at hdvp; cases hdvp
            | cons k2 ks' =>
              have hw0 := lookupChild_wf t k' sub0 hwt hc
              have hs := updateData_wf layers L s dv sub0 sub hst hw0 hsub
              rw [gsal_cons_tree _ sub k' k2 ks' L
                (lookupChild_setChild_self t k' _ htt hwt) hs.1]
              exact (ihdv s).1 sub0 sub (k2 :: ks') v hst hw0 hsub hdvp
    · -- preservation
      intro t t' p L' htt hwt h hp
      obtain ⟨t₁, hrest, hstep⟩ := updateData_mcons_inv layers L s t k dv rest t' h
      have ht₁ := stepwf t t₁ htt hwt hstep
      cases p with
      | nil =>
        rw [getScalarAtLayer_nil, getScalarAtLayer_nil]
      | cons k' ks =>
        obtain ⟨hrnone, himp⟩ := dataPath_mcons_none k dv rest k' ks hp
        rw [(ihrest s).2 t₁ t' (k' :: ks) L' ht₁.1 ht₁.2 hrest hrnone]
        by_cases hk : k' = k
        · subst hk
          have hdvnone := himp rfl
          rcases hstep with ⟨v0, hdv, hcase | hcase⟩ | ⟨hm, hcase | hcase⟩
          · obtain ⟨hc, ht1⟩ := hcase
            subst hdv ht1
            cases ks with
            | nil => simp [dataPath] at hdvnone
            | cons k2 ks' =>
              rw [gsal_cons_leaf _ k' k2 ks' L' _
                (lookupChild_setChild_self t k' _ htt hwt)]
              rw [gsal_head_none t k' (k2 :: ks') L' hc]
          · obtain ⟨e, hc, ht1⟩ := hcase
            subst hdv ht1
            cases ks with
            | nil => simp [dataPath] at hdvnone
            | cons k2 ks' =>
              rw [gsal_cons_leaf _ k' k2 ks' L' _
                (lookupChild_setChild_self t k' _ htt hwt)]
              rw [gsal_cons_leaf t k' k2 ks' L' e hc]
          · obtain ⟨hc, sub, hsub, ht1⟩ := hcase
            subst ht1
            have hs := updateData_wf layers L s dv .tnil sub rfl rfl hsub
            cases ks with
            | nil =>
              rw [gsal_single_tree _ sub k' L'
                (lookupChild_setChild_self t k' _ htt hwt) hs.1]
              rw [gsal_head_none t k' [] L' hc]
            | cons k2 ks' =>
              rw [gsal_cons_tree _ sub k' k2 ks' L'
                (lookupChild_setChild_self t k' _ htt hwt) hs.1]
              rw [(ihdv s).2 .tnil sub (k2 :: ks') L' rfl rfl hsub hdvnone]
              rw [getScalarAtLayer_tnil]
              rw [gsal_head_none t k' (k2 :: ks') L' hc]
          · obtain ⟨sub0, hc, hst, sub, hsub, ht1⟩ := hcase
            subst ht1
            have hw0 := lookupChild_wf t k' sub0 hwt hc
            have hs := updateData_wf layers L s dv sub0 sub hst hw0 hsub
            cases ks with
            | nil =>
              rw [gsal_single_tree _ sub k' L'
                (lookupChild_setChild_self t k' _ htt hwt) hs.1]
              rw [gsal_single_tree t sub0 k' L' hc hst]
            | cons k2 ks' =>
              rw [gsal_cons_tree _ sub k' k2 ks' L'
                (lookupChild_setChild_self t k' _ htt hwt) hs.1]
              rw [(ihdv s).2 sub0 sub (k2 :: ks') L' hst hw0 hsub hdvnone]
              rw [gsal_cons_tree t sub0 k' k2 ks' L' hc hst]
        · -- k' does not touch the updated key
          rcases hstep with ⟨v0, hdv, hcase | hcase⟩ | ⟨hm, hcase | hcase⟩
          · obtain ⟨hc, ht1⟩ := hcase
            subst ht1
            exact gsal_head_congr _ t k' ks L'
              (lookupChild_setChild_ne t k k' _ hk)
          · obtain ⟨e, hc, ht1⟩ := hcase
            subst ht1
            exact gsal_head_congr _ t k' ks L'
              (lookupChild_setChild_ne t k k' _ hk)
          · obtain ⟨hc, sub, hsub, ht1⟩ := hcase
            subst ht1
            exact gsal_head_congr _ t k' ks L'
              (lookupChild_setChild_ne t k k' _ hk)
          · obtain ⟨sub0, hc, hst, sub, hsub, ht1⟩ := hcase
            subst ht1
            exact gsal_head_congr _ t k' ks L'
              (lookupChild_setChild_ne t k k' _ hk)

theorem updateCT_ok_inv (layers : List String) (t : CTree) (d : CData)
    (L : String) (s : Option String) (t' : CTree)
    (h : updateCT layers t d (some L) s = .ok t') :
    L ∈ layers ∧ updateData layers L s t d = .ok t' := by
  simp only [updateCT, Option.getD] at h
  by_cases hL : L ∈ layers
  · rw [if_pos hL] at h
    exact ⟨hL, h⟩
  · rw [if_neg hL] at h
    cases h

/-- C7: updating the same deep scalar key twice at the same layer
overwrites — reading the path at that layer resolves to the second value —
and merging two nested maps with disjoint deep keys yields their union:
after both updates every path assigned by the second map reads its value,
and every path assigned only by the first map still reads the first map's
value. -/
theorem c7_update_overwrites_and_unions (layers : List String) (L : String)
    (s1 s2 : Option String) :
    (∀ (t t1 t2 : CTree) (k : String) (p : List String) (v1 v2 : CVal),
      t.isTree = true → wfT t = true →
      updateCT layers t (nest (k :: p) v1) (some L) s1 = .ok t1 →
      updateCT layers t1 (nest (k :: p) v2) (some L) s2 = .ok t2 →
      getScalarAtLayer t2 (k :: p) L = some v2)
    ∧ (∀ (d1 d2 : CData) (t1 t2 : CTree),
      updateCT layers .tnil d1 (some L) s1 = .ok t1 →
      updateCT layers t1 d2 (some L) s2 = .ok t2 →
      (∀ (p : List String) (v : CVal), dataPath d2 p = some v →
        getScalarAtLayer t2 p L = some v)
      ∧ (∀ (p : List String) (v : CVal), dataPath d1 p = some v →
        dataPath d2 p = none → getScalarAtLayer t2 p L = some v)) := by
  constructor
  · intro t t1 t2 k p v1 v2 htt hwt h1 h2
    obtain ⟨_, hupd1⟩ := updateCT_ok_inv layers t _ L s1 t1 h1
    obtain ⟨_, hupd2⟩ := updateCT_ok_inv layers t1 _ L s2 t2 h2
    have ht1 := updateData_wf layers L s1 (nest (k :: p) v1) t t1 htt hwt hupd1
    exact (updateData_path_props layers L (nest (k :: p) v2) s2).1 t1 t2
      (k :: p) v2 ht1.1 ht1.2 hupd2 (dataPath_nest v2 (k :: p))
  · intro d1 d2 t1 t2 h1 h2
    obtain ⟨_, hupd1⟩ := updateCT_ok_inv layers .tnil d1 L s1 t1 h1
    obtain ⟨_, hupd2⟩ := updateCT_ok_inv layers t1 d2 L s2 t2 h2
    have ht1 := updateData_wf layers L s1 d1 .tnil t1 rfl rfl hupd1
    constructor
    · intro p v hp
      exact (updateData_path_props layers L d2 s2).1 t1 t2 p v
        ht1.1 ht1.2 hupd2 hp
    · intro p v hp1 hp2
      rw [(updateData_path_props layers L d2 s2).2 t1 t2 p L
        ht1.1 ht1.2 hupd2 hp2]
      exact (updateData_path_props layers L d1 s1).1 .tnil t1 p v
        rfl rfl hupd1 hp1

/-- Witness for C7: overwriting `a.b` at layer `base` (1 then 2) reads 2;
merging `{x: {y: 3}}` then `{z: 4}` reads both `z = 4` and `x.y = 3`. -/
theorem c7_update_overwrites_and_unions_witness :
    getScalarAtLayer
        (.tcons "a" (.tcons "b" (.leaf [("base", some "w2", .int 2)]) .tnil)
          .tnil) ["a", "b"] "base"
      = some (.int 2)
    ∧ getScalarAtLayer
        (.tcons "x" (.tcons "y" (.leaf [("base", some "w1", .int 3)]) .tnil)
          (.tcons "z" (.leaf [("base", some "w2", .int 4)]) .tnil)) ["z"] "base"
      = some (.int 4)
    ∧ getScalarAtLayer
        (.tcons "x" (.tcons "y" (.leaf [("base", some "w1", .int 3)]) .tnil)
          (.tcons "z" (.leaf [("base", some "w2", .int 4)]) .tnil)) ["x", "y"]
        "base"
      = some (.int 3) := by
  refine ⟨?_, ?_, ?_⟩
  · exact (c7_update_overwrites_and_unions ["base"] "base"
      (some "w1") (some "w2")).1 .tnil
      (.tcons "a" (.tcons "b" (.leaf [("base", some "w1", .int 1)]) .tnil)
        .tnil)
      (.tcons "a" (.tcons "b" (.leaf [("base", some "w2", .int 2)]) .tnil)
        .tnil)
      "a" ["b"] (.int 1) (.int 2) rfl rfl (by rfl) (by rfl)
  · exact ((c7_update_overwrites_and_unions ["base"] "base"
      (some "w1") (some "w2")).2
      (nest ["x", "y"] (.int 3)) (.mcons "z" (.scalar (.int 4)) .mnil)
      (.tcons "x" (.tcons "y" (.leaf [("base", some "w1", .int 3)]) .tnil)
        .tnil)
      (.tcons "x" (.tcons "y" (.leaf [("base", some "w1", .int 3)]) .tnil)
        (.tcons "z" (.leaf [("base", some "w2", .int 4)]) .tnil))
      (by rfl) (by rfl)).1 ["z"] (.int 4) (by rfl)
  · exact ((c7_update_overwrites_and_unions ["base"] "base"
      (some "w1") (some "w2")).2
      (nest ["x", "y"] (.int 3)) (.mcons "z" (.scalar (.int 4)) .mnil)
      (.tcons "x" (.tcons "y" (.leaf [("base", some "w1", .int 3)]) .tnil)
        .tnil)
      (.tcons "x" (.tcons "y" (.leaf [("base", some "w1", .int 3)]) .tnil)
        (.tcons "z" (.leaf [("base", some "w2", .int 4)]) .tnil))
      (by rfl) (by rfl)).2 ["x", "y"] (.int 3) (by rfl) (by rfl)

/-- C2: for a worklist `[A, B]` where B's setup callback registers a new
component C through the builder, draining invokes the setup callback of
each of A, B and C exactly once, in the order A, B, C, and
`setup_components` returns the processed components `[A, B, C]` as the
finished collection.  The components are distinct instances (distinct
identities) and declare no configuration defaults. -/
theorem c2_setup_processes_in_order (layers : List String) (cfg : CTree)
    (A B C : Comp)
    (hAd : A.defaults = none) (hBd : B.defaults = none) (hCd : C.defaults = none)
    (hAs : A.hasSetup = true) (hBs : B.hasSetup = true) (hCs : C.hasSetup = true)
    (hAr : A.regs = .nil) (hBr : B.regs = .cons C .nil) (hCr : C.regs = .nil)
    (hAB : A.cid ≠ B.cid) (hAC : A.cid ≠ C.cid) (hBC : B.cid ≠ C.cid) :
    (setupComponents layers cfg [some A, some B]).err = none
    ∧ (setupComponents layers cfg [some A, some B]).trace = [A, B, C]
    ∧ (setupComponents layers cfg [some A, some B]).done = [A, B, C] := by
  have hpre : prePass layers ⟨cfg, [], [], [], none⟩ [some A, some B]
      = ⟨cfg, [], [], [], none⟩ := by
    simp [prePass, configOne, hAd, hBd]
  have hstep : setupComponents layers cfg [some A, some B]
      = drain layers ⟨cfg, [], [], [], none⟩ [some A, some B] := by
    simp [setupComponents, hpre]
  have hA : configOne layers ⟨cfg, [], [], [], none⟩ A = ⟨cfg, [], [], [], none⟩ :=
    configOne_noop layers _ A (Or.inl hAd)
  have hB : configOne layers ⟨cfg, [], [A], [A], none⟩ B = ⟨cfg, [], [A], [A], none⟩ :=
    configOne_noop layers _ B (Or.inl hBd)
  have hC : configOne layers ⟨cfg, [], [A, B], [A, B], none⟩ C
      = ⟨cfg, [], [A, B], [A, B], none⟩ :=
    configOne_noop layers _ C (Or.inl hCd)
  rw [hstep, drain_cons_some, hA]
  simp only [Option.isSome_none, Bool.false_eq_true, if_false, ids, List.map_nil,
    List.not_mem_nil, hAs, if_true, hAr, CompList.toList, List.map, List.nil_append,
    List.append_nil, ite_false, ite_true]
  rw [drain_cons_some, hB]
  simp only [Option.isSome_none, Bool.false_eq_true, if_false, ids, List.map,
    List.mem_singleton, Ne.symm hAB, hBs, if_true, hBr, CompList.toList,
    List.nil_append, List.append_nil, List.cons_append, ite_false, ite_true]
  rw [drain_cons_some, hC]
  simp only [Option.isSome_none, Bool.false_eq_true, if_false, ids, List.map,
    List.mem_cons, List.mem_singleton, List.not_mem_nil, or_false,
    Ne.symm hAC, Ne.symm hBC, hCs, if_true, hCr, CompList.toList,
    List.nil_append, List.append_nil, ite_false, ite_true]
  rw [drain_nil]
  simp

/-- Witness for C2: three concrete components with distinct identities,
where the second registers the third during its setup. -/
theorem c2_setup_processes_in_order_witness :
    (setupComponents ["base"] .tnil
        [some (.mk 0 none "a" true .nil),
         some (.mk 1 none "b" true (.cons (.mk 2 none "c" true .nil) .nil))]).err
      = none
    ∧ (setupComponents ["base"] .tnil
        [some (.mk 0 none "a" true .nil),
         some (.mk 1 none "b" true (.cons (.mk 2 none "c" true .nil) .nil))]).trace
      = [.mk 0 none "a" true .nil,
         .mk 1 none "b" true (.cons (.mk 2 none "c" true .nil) .nil),
         .mk 2 none "c" true .nil]
    ∧ (setupComponents ["base"] .tnil
        [some (.mk 0 none "a" true .nil),
         some (.mk 1 none "b" true (.cons (.mk 2 none "c" true .nil) .nil))]).done
      = [.mk 0 none "a" true .nil,
         .mk 1 none "b" true (.cons (.mk 2 none "c" true .nil) .nil),
         .mk 2 none "c" true .nil] :=
  c2_setup_processes_in_order ["base"] .tnil
    (.mk 0 none "a" true .nil)
    (.mk 1 none "b" true (.cons (.mk 2 none "c" true .nil) .nil))
    (.mk 2 none "c" true .nil)
    rfl rfl rfl rfl rfl rfl rfl rfl rfl
    (by decide) (by decide) (by decide)

/-- The configuration pre-pass never touches the Done list or the setup
trace. -/
theorem prePass_done_trace (layers : List String) :
    ∀ (ws : List (Option Comp)) (st : SimState),
      (prePass layers st ws).done = st.done
      ∧ (prePass layers st ws).trace = st.trace := by
  intro ws
  induction ws with
  | nil => intro st; exact ⟨rfl, rfl⟩
  | cons x rest ih =>
    intro st
    cases x with
    | none => simpa [prePass] using ih st
    | some c =>
      simp only [prePass]
      rcases configOne_cases layers st c with h | ⟨_, _, _, hdone, htrace⟩ | ⟨_, _, hdone, htrace⟩
      · rw [h]
        by_cases he : st.err.isSome
        · simp [he]
        · simp only [he, if_false]
          exact ih st
      · by_cases he : (configOne layers st c).err.isSome
        · simp only [he, if_true]
          exact ⟨hdone, htrace⟩
        · simp only [he, if_false]
          have := ih (configOne layers st c)
          exact ⟨this.1.trans hdone, this.2.trans htrace⟩
      · by_cases he : (configOne layers st c).err.isSome
        · simp only [he, if_true]
          exact ⟨hdone, htrace⟩
        · simp only [he, if_false]
          have := ih (configOne layers st c)
          exact ⟨this.1.trans hdone, this.2.trans htrace⟩

/-- A pre-pass that raised no error configured every listed component that
declares defaults, and never forgets previously configured components. -/
theorem prePass_configures (layers : List String) :
    ∀ (ws : List (Option Comp)) (st : SimState),
      (prePass layers st ws).err = none →
      ((∀ n, n ∈ ids st.configured → n ∈ ids (prePass layers st ws).configured)
       ∧ (∀ c : Comp, some c ∈ ws → c.defaults ≠ none →
           c.cid ∈ ids (prePass layers st ws).configured)) := by
  intro ws
  induction ws with
  | nil =>
    intro st _
    exact ⟨fun n hn => hn, fun c hc => absurd hc (List.not_mem_nil _)⟩
  | cons x rest ih =>
    intro st herr
    cases x with
    | none =>
      simp only [prePass] at herr ⊢
      refine ⟨(ih st herr).1, ?_⟩
      intro c hc hd
      rcases List.mem_cons.mp hc with hc | hc
      · cases hc
      · exact (ih st herr).2 c hc hd
    | some c₀ =>
      simp only [prePass] at herr ⊢
      by_cases he : (configOne layers st c₀).err.isSome
      · rw [if_pos he] at herr
        rw [herr] at he
        simp at he
      · rw [if_neg he] at herr ⊢
        have hmono : ∀ n, n ∈ ids st.configured →
            n ∈ ids (configOne layers st c₀).configured := by
          rcases configOne_cases layers st c₀ with h | ⟨_, hconf, _, _, _⟩ | ⟨hsome, _, _, _⟩
          · rw [h]; exact fun n hn => hn
          · rw [hconf]; exact fun n hn => List.mem_append_left _ hn
          · exact absurd hsome he
        refine ⟨fun n hn => (ih _ herr).1 n (hmono n hn), ?_⟩
        intro c hc hd
        rcases List.mem_cons.mp hc with hceq | hc
        · -- the head component itself
          have hcc : c = c₀ := Option.some.inj hceq
          subst hcc
          cases hdef : c.defaults with
          | none => exact absurd hdef hd
          | some d =>
            by_cases hmem : c.cid ∈ ids st.configured
            · exact (ih _ herr).1 _ (hmono _ hmem)
            · cases happ : applyDefaults layers st.config d c.src with
              | ok cfg =>
                have hids : ids (configOne layers st c).configured
                    = ids st.configured ++ [c.cid] := by
                  simp only [configOne, hdef]
                  rw [if_neg hmem, happ]
                  simp [ids]
                refine (ih _ herr).1 _ ?_
                rw [hids]
                exact List.mem_append_right _ (List.mem_singleton.mpr rfl)
              | error e =>
                have : (configOne layers st c).err.isSome := by
                  simp only [configOne, hdef]
                  rw [if_neg hmem, happ]
                  simp
                exact absurd this he
        · exact (ih _ herr).2 c hc hd

/-- Draining a none-free prefix followed by a null placeholder: provided
every prefix component with defaults is already configured, the drain stops
with the null-placeholder error exactly when the null is dequeued, and the
only setup callbacks invoked beyond the ones already recorded are those of
prefix components — components queued after the null (including any
registered during the prefix, which are appended behind it) are never set
up. -/
theorem drain_stops_at_none (layers : List String) :
    ∀ (ws₁ : List (Option Comp)) (st : SimState) (ws₂ : List (Option Comp)),
      st.err = none →
      (∀ x ∈ ws₁, x ≠ none) →
      (∀ c : Comp, some c ∈ ws₁ → c.defaults = none ∨ c.cid ∈ ids st.configured) →
      (drain layers st (ws₁ ++ none :: ws₂)).err = some .noneInList
      ∧ (∀ c : Comp, c ∈ (drain layers st (ws₁ ++ none :: ws₂)).trace →
          c ∈ st.trace ∨ some c ∈ ws₁) := by
  intro ws₁
  induction ws₁ with
  | nil =>
    intro st ws₂ herr _ _
    rw [List.nil_append, drain_none]
    exact ⟨rfl, fun c hc => Or.inl hc⟩
  | cons x rest ih =>
    intro st ws₂ herr hnone hconf
    have hx : x ≠ none := hnone x (List.mem_cons_self x rest)
    cases x with
    | none => exact absurd rfl hx
    | some c =>
      have hc0 : configOne layers st c = st :=
        configOne_noop layers st c (hconf c (List.mem_cons_self _ _))
      rw [List.cons_append, drain_cons_some, hc0]
      have herr' : st.err.isSome = false := by rw [herr]; rfl
      rw [if_neg (by rw [herr']; exact Bool.false_ne_true)]
      by_cases hmem : c.cid ∈ ids st.done
      · rw [if_pos hmem]
        have := ih st ws₂ herr (fun y hy => hnone y (List.mem_cons_of_mem _ hy))
          (fun c' hc' => hconf c' (List.mem_cons_of_mem _ hc'))
        exact ⟨this.1, fun c' hc' => (this.2 c' hc').imp id (List.mem_cons_of_mem _)⟩
      · rw [if_neg hmem]
        cases hsu : c.hasSetup with
        | true =>
          rw [if_pos rfl]
          have hassoc : rest ++ none :: ws₂ ++ c.regs.toList.map some
              = rest ++ none :: (ws₂ ++ c.regs.toList.map some) := by
            simp
          rw [hassoc]
          have := ih { st with done := st.done ++ [c], trace := st.trace ++ [c] }
            (ws₂ ++ c.regs.toList.map some) herr
            (fun y hy => hnone y (List.mem_cons_of_mem _ hy))
            (fun c' hc' => hconf c' (List.mem_cons_of_mem _ hc'))
          refine ⟨this.1, ?_⟩
          intro c' hc'
          rcases this.2 c' hc' with h | h
          · simp only [List.mem_append, List.mem_singleton] at h
            rcases h with h | h
            · exact Or.inl h
            · exact Or.inr (by rw [h]; exact List.mem_cons_self _ _)
          · exact Or.inr (List.mem_cons_of_mem _ h)
        | false =>
          rw [if_neg (by simp)]
          have := ih { st with done := st.done ++ [c], trace := st.trace } ws₂ herr
            (fun y hy => hnone y (List.mem_cons_of_mem _ hy))
            (fun c' hc' => hconf c' (List.mem_cons_of_mem _ hc'))
          refine ⟨this.1, ?_⟩
          intro c' hc'
          rcases this.2 c' hc' with h | h
          · exact Or.inl h
          · exact Or.inr (List.mem_cons_of_mem _ h)

/-- C4: a worklist with a null placeholder fails with the
`ComponentConfigError` raised when the null element is dequeued, and no
setup callback is invoked for any element queued after that point: every
invoked setup belongs to the none-free prefix.  The configuration pre-pass
(which precedes the drain and does not invoke setups) is assumed to raise
no error. -/
theorem c4_null_placeholder_aborts (layers : List String) (cfg : CTree)
    (ws₁ ws₂ : List (Option Comp))
    (hnone : ∀ x ∈ ws₁, x ≠ none)
    (hpre : (prePass layers ⟨cfg, [], [], [], none⟩ (ws₁ ++ none :: ws₂)).err = none) :
    (setupComponents layers cfg (ws₁ ++ none :: ws₂)).err = some .noneInList
    ∧ ∀ c : Comp,
        c ∈ (setupComponents layers cfg (ws₁ ++ none :: ws₂)).trace →
        some c ∈ ws₁ := by
  have hunfold : setupComponents layers cfg (ws₁ ++ none :: ws₂)
      = drain layers (prePass layers ⟨cfg, [], [], [], none⟩ (ws₁ ++ none :: ws₂))
          (ws₁ ++ none :: ws₂) := by
    simp only [setupComponents, hpre]
    rfl
  have htr := prePass_done_trace layers (ws₁ ++ none :: ws₂) ⟨cfg, [], [], [], none⟩
  have hconf := prePass_configures layers (ws₁ ++ none :: ws₂) ⟨cfg, [], [], [], none⟩ hpre
  have hmain := drain_stops_at_none layers ws₁
    (prePass layers ⟨cfg, [], [], [], none⟩ (ws₁ ++ none :: ws₂)) ws₂ hpre hnone
    (by
      intro c hc
      cases hd : c.defaults with
      | none => exact Or.inl rfl
      | some d =>
        refine Or.inr (hconf.2 c ?_ (by rw [hd]; exact fun h => Option.noConfusion h))
        exact List.mem_append_left _ hc)
  rw [hunfold]
  refine ⟨hmain.1, ?_⟩
  intro c hc
  rcases hmain.2 c hc with h | h
  · rw [htr.2] at h
    cases h
  · exact h

/-- Witness for C4: worklist `[some A, none, some B]` with default-free
components; the drain aborts with the null-placeholder error and only A's
setup callback ran. -/
theorem c4_null_placeholder_aborts_witness :
    (setupComponents ["base"] .tnil
        [some (.mk 0 none "a" true .nil), none, some (.mk 1 none "b" true .nil)]).err
      = some .noneInList
    ∧ ∀ c : Comp,
        c ∈ (setupComponents ["base"] .tnil
          [some (.mk 0 none "a" true .nil), none,
           some (.mk 1 none "b" true .nil)]).trace →
        some c ∈ [some (.mk 0 none "a" true .nil)] :=
  c4_null_placeholder_aborts ["base"] .tnil
    [some (.mk 0 none "a" true .nil)] [some (.mk 1 none "b" true .nil)]
    (by intro x hx; simp at hx; rw [hx]; exact fun h => Option.noConfusion h)
    (by simp [prePass, configOne, Comp.defaults])

/-- The pre-pass keeps the configured identities duplicate-free. -/
theorem prePass_nodup (layers : List String) :
    ∀ (ws : List (Option Comp)) (st : SimState),
      (ids st.configured).Nodup → (ids (prePass layers st ws).configured).Nodup := by
  intro ws
  induction ws with
  | nil => intro st h; exact h
  | cons x rest ih =>
    intro st h
    cases x with
    | none => simpa [prePass] using ih st h
    | some c =>
      simp only [prePass]
      have hnext : (ids (configOne layers st c).configured).Nodup := by
        rcases configOne_cases layers st c with hh | ⟨_, hconf, hfresh, _, _⟩ | ⟨_, hconf, _, _⟩
        · rw [hh]; exact h
        · rw [hconf]
          simp [List.nodup_append, h, hfresh]
        · rw [hconf]; exact h
      by_cases he : (configOne layers st c).err.isSome
      · rw [if_pos he]; exact hnext
      · rw [if_neg he]; exact ih _ hnext

theorem ids_append (a b : List Comp) : ids (a ++ b) = ids a ++ ids b := by
  simp [ids]

theorem nodup_ids_append_raw {l : List Nat} {n : Nat}
    (h : l.Nodup) (hf : n ∉ l) : (l ++ [n]).Nodup := by
  simp [List.nodup_append, h, hf]

theorem nodup_ids_append (l : List Comp) (c : Comp)
    (h : (ids l).Nodup) (hf : c.cid ∉ ids l) : (ids (l ++ [c])).Nodup := by
  rw [ids_append]
  exact nodup_ids_append_raw h hf

/-- The drain loop's idempotence invariant: identities in `configured`,
`done` and the setup-invocation trace stay duplicate-free, and every traced
component is Done. -/
theorem drain_nodup (layers : List String) (st : SimState)
    (ws : List (Option Comp)) :
    (ids st.configured).Nodup → (ids st.done).Nodup → (ids st.trace).Nodup →
    (∀ n ∈ ids st.trace, n ∈ ids st.done) →
    ((ids (drain layers st ws).configured).Nodup
     ∧ (ids (drain layers st ws).done).Nodup
     ∧ (ids (drain layers st ws).trace).Nodup
     ∧ (∀ n ∈ ids (drain layers st ws).trace, n ∈ ids (drain layers st ws).done)) := by
  induction st, ws using drain.induct layers with
  | case1 st =>
    intro h1 h2 h3 h4
    rw [drain_nil]
    exact ⟨h1, h2, h3, h4⟩
  | case2 st rest =>
    intro h1 h2 h3 h4
    rw [drain_none]
    exact ⟨h1, h2, h3, h4⟩
  | case3 st c rest st1 herr =>
    intro h1 h2 h3 h4
    rw [drain_cons_some, if_pos herr]
    rcases configOne_cases layers st c with hh | ⟨_, hconf, hfresh, hdone, htrace⟩ |
      ⟨_, hconf, hdone, htrace⟩
    · rw [hh]; exact ⟨h1, h2, h3, h4⟩
    · rw [hconf, hdone, htrace]
      exact ⟨by simp [List.nodup_append, h1, hfresh], h2, h3, h4⟩
    · rw [hconf, hdone, htrace]
      exact ⟨h1, h2, h3, h4⟩
  | case4 st c rest st1 herr hmem ih =>
    intro h1 h2 h3 h4
    rw [drain_cons_some, if_neg herr, if_pos hmem]
    have hcfg : (ids (configOne layers st c).configured).Nodup := by
      rcases configOne_cases layers st c with hh | ⟨_, hconf, hfresh, _, _⟩ |
        ⟨hsome, _, _, _⟩
      · rw [hh]; exact h1
      · rw [hconf]; exact nodup_ids_append_raw h1 hfresh
      · exact absurd hsome herr
    have hddt : (configOne layers st c).done = st.done
        ∧ (configOne layers st c).trace = st.trace := by
      rcases configOne_cases layers st c with hh | ⟨_, _, _, hdone, htrace⟩ |
        ⟨hsome, _, _, _⟩
      · rw [hh]; exact ⟨rfl, rfl⟩
      · exact ⟨hdone, htrace⟩
      · exact absurd hsome herr
    refine ih hcfg ?_ ?_ ?_
    · show (ids (configOne layers st c).done).Nodup
      rw [hddt.1]; exact h2
    · show (ids (configOne layers st c).trace).Nodup
      rw [hddt.2]; exact h3
    · show ∀ n ∈ ids (configOne layers st c).trace,
        n ∈ ids (configOne layers st c).done
      rw [hddt.1, hddt.2]; exact h4
  | case5 st c rest st1 herr hmem hsu ih =>
    intro h1 h2 h3 h4
    rw [drain_cons_some, if_neg herr, if_neg hmem, if_pos hsu]
    have hcfg : (ids (configOne layers st c).configured).Nodup := by
      rcases configOne_cases layers st c with hh | ⟨_, hconf, hfresh, _, _⟩ |
        ⟨hsome, _, _, _⟩
      · rw [hh]; exact h1
      · rw [hconf]; exact nodup_ids_append_raw h1 hfresh
      · exact absurd hsome herr
    have hddt : (configOne layers st c).done = st.done
        ∧ (configOne layers st c).trace = st.trace := by
      rcases configOne_cases layers st c with hh | ⟨_, _, _, hdone, htrace⟩ |
        ⟨hsome, _, _, _⟩
      · rw [hh]; exact ⟨rfl, rfl⟩
      · exact ⟨hdone, htrace⟩
      · exact absurd hsome herr
    have hfreshdone : c.cid ∉ ids st.done := by
      intro hin
      apply hmem
      show c.cid ∈ ids (configOne layers st c).done
      rw [hddt.1]; exact hin
    refine ih hcfg ?_ ?_ ?_
    · show (ids ((configOne layers st c).done ++ [c])).Nodup
      rw [hddt.1]
      exact nodup_ids_append _ _ h2 hfreshdone
    · show (ids ((configOne layers st c).trace ++ [c])).Nodup
      rw [hddt.2]
      exact nodup_ids_append _ _ h3 (fun hin => hfreshdone (h4 _ hin))
    · show ∀ n ∈ ids ((configOne layers st c).trace ++ [c]),
        n ∈ ids ((configOne layers st c).done ++ [c])
      rw [hddt.1, hddt.2]
      intro n hn
      rw [ids_append] at hn ⊢
      rcases List.mem_append.mp hn with hn | hn
      · exact List.mem_append_left _ (h4 n hn)
      · exact List.mem_append_right _ hn
  | case6 st c rest st1 herr hmem hsu ih =>
    intro h1 h2 h3 h4
    rw [drain_cons_some, if_neg herr, if_neg hmem, if_neg hsu]
    have hcfg : (ids (configOne layers st c).configured).Nodup := by
      rcases configOne_cases layers st c with hh | ⟨_, hconf, hfresh, _, _⟩ |
        ⟨hsome, _, _, _⟩
      · rw [hh]; exact h1
      · rw [hconf]; exact nodup_ids_append_raw h1 hfresh
      · exact absurd hsome herr
    have hddt : (configOne layers st c).done = st.done
        ∧ (configOne layers st c).trace = st.trace := by
      rcases configOne_cases layers st c with hh | ⟨_, _, _, hdone, htrace⟩ |
        ⟨hsome, _, _, _⟩
      · rw [hh]; exact ⟨rfl, rfl⟩
      · exact ⟨hdone, htrace⟩
      · exact absurd hsome herr
    have hfreshdone : c.cid ∉ ids st.done := by
      intro hin
      apply hmem
      show c.cid ∈ ids (configOne layers st c).done
      rw [hddt.1]; exact hin
    refine ih hcfg ?_ ?_ ?_
    · show (ids ((configOne layers st c).done ++ [c])).Nodup
      rw [hddt.1]
      exact nodup_ids_append _ _ h2 hfreshdone
    · show (ids (configOne layers st c).trace).Nodup
      rw [hddt.2]; exact h3
    · show ∀ n ∈ ids (configOne layers st c).trace,
        n ∈ ids ((configOne layers st c).done ++ [c])
      rw [hddt.1, hddt.2]
      intro n hn
      rw [ids_append]
      exact List.mem_append_left _ (h4 n hn)

/-- C9: the lifecycle of every component instance is monotone and
idempotent across the whole `setup_components` run, even when the same
instance is re-registered into the worklist mid-traversal: its defaults are
merged at most once (the configured identities are duplicate-free), its
setup callback is invoked at most once (the invocation-trace identities are
duplicate-free), re-processing an already-Done component is a no-op (the
Done identities are duplicate-free), and every traced component reached
Done. -/
theorem c9_lifecycle_monotone_idempotent (layers : List String) (cfg : CTree)
    (ws : List (Option Comp)) :
    (ids (setupComponents layers cfg ws).configured).Nodup
    ∧ (ids (setupComponents layers cfg ws).done).Nodup
    ∧ (ids (setupComponents layers cfg ws).trace).Nodup
    ∧ (∀ n ∈ ids (setupComponents layers cfg ws).trace,
        n ∈ ids (setupComponents layers cfg ws).done) := by
  simp only [setupComponents]
  by_cases he : (prePass layers ⟨cfg, [], [], [], none⟩ ws).err.isSome
  · simp only [he, if_true]
    have h1 := prePass_nodup layers ws ⟨cfg, [], [], [], none⟩ (by simp [ids])
    have h2 := prePass_done_trace layers ws ⟨cfg, [], [], [], none⟩
    rw [h2.1, h2.2]
    exact ⟨h1, by simp [ids], by simp [ids], by simp [ids]⟩
  · simp only [he, if_false]
    have h1 := prePass_nodup layers ws ⟨cfg, [], [], [], none⟩ (by simp [ids])
    have h2 := prePass_done_trace layers ws ⟨cfg, [], [], [], none⟩
    exact drain_nodup layers _ ws h1 (by rw [h2.1]; simp [ids])
      (by rw [h2.2]; simp [ids]) (by rw [h2.2]; simp [ids])

/-- C6: attribute-style or item-style assignment to a key that was never
created by an update/merge fails with a key error and, functionally, leaves
the tree unchanged; and a successful assignment never introduces a key —
the keys of the result are exactly the keys of the original tree, so update
and merge remain the only key-introducing operations. -/
theorem c6_setattr_requires_existing_key (layers : List String) (t : CTree)
    (name : String) (d : CData) :
    (lookupChild t name = none → setAttr layers t name d = .error (.keyError name))
    ∧ (∀ t', setAttr layers t name d = .ok t' → keysOf t' = keysOf t) := by
  constructor
  · intro h
    simp [setAttr, h]
  · intro t' h
    cases hc : lookupChild t name with
    | none => simp [setAttr, hc] at h
    | some child =>
      have hs : (lookupChild t name).isSome := by simp [hc]
      simp only [setAttr, hs, if_true] at h
      exact updateData_single_keysOf _ _ _ t name d t' hs h

/-- Witness for C6: assigning to the missing key `zzz` fails with the key
error; assigning to the existing key `a` succeeds and leaves the key set
unchanged. -/
theorem c6_setattr_requires_existing_key_witness :
    setAttr ["base"] (.tcons "a" (.leaf [("base", none, .int 1)]) .tnil) "zzz"
        (.scalar (.int 5))
      = .error (.keyError "zzz")
    ∧ keysOf (.tcons "a" (.leaf [("base", none, .int 5)]) .tnil)
      = keysOf (.tcons "a" (.leaf [("base", none, .int 1)]) .tnil) := by
  constructor
  · exact (c6_setattr_requires_existing_key ["base"]
      (.tcons "a" (.leaf [("base", none, .int 1)]) .tnil) "zzz"
      (.scalar (.int 5))).1 rfl
  · exact (c6_setattr_requires_existing_key ["base"]
      (.tcons "a" (.leaf [("base", none, .int 1)]) .tnil) "a"
      (.scalar (.int 5))).2
      (.tcons "a" (.leaf [("base", none, .int 5)]) .tnil) rfl

